import Mathlib

/-!
Verification of the go-nova signed HTTP transport and retry engine.

This file shallowly embeds, in Lean 4, the parts of the repository that the
frozen claims talk about:

* the error taxonomy and `isRetryable` classification of
  `internal/httpclient/client.go`;
* the `DoJSON` bounded-retry loop with exponential backoff;
* base64 (standard and raw) encoding/decoding as used by the Go standard
  library, and the padding/whitespace-tolerant `decodeSignatureBase64`;
* the RSA PKCS#1 v1.5 sign/verify pair of `internal/signature`
  (RSA modular exponentiation is modelled arithmetically over `Nat`;
  the hash functions and the PKCS#1 digest-info padding, which live in the
  Go standard library and not in this repository, are abstracted as
  parameters of a `CryptoModel`);
* the canonical JSON encoder `jsonutil.Marshal`;
* the single-attempt request builder `doOnce` with its header assembly and
  recorder (observer hook) events.

Stateful Go code becomes explicit state passing; fallible code returns
`Except`/`Option`; machine integers become `Nat`, except the backoff wait —
a Go `time.Duration` (int64) that wraps around on `wait *= 2` — which, for
the claim about the wait values themselves, is modelled duration-faithfully
as an `Int` doubled through the two's-complement wrap `wrap64`.
-/

/-! ## Error model

Go errors form a tree through wrapping.  The constructors mirror the error
classes that `isRetryable` in client.go inspects:

* `canceled` / `deadlineExceeded` — `context.Canceled`, `context.DeadlineExceeded`;
* `httpStatus` — `*HTTPStatusError{StatusCode, Body}`;
* `urlError` — `*url.Error` wrapping a transport cause;
* `netError` — a terminal value implementing `net.Error` (e.g. `*net.OpError`);
* `wrapped` — `fmt.Errorf("msg: %w", inner)`;
* `simple` — `errors.New` / `fmt.Errorf` without `%w`.
-/

inductive GoError where
  | canceled : GoError
  | deadlineExceeded : GoError
  | httpStatus (code : Nat) (body : List Nat) : GoError
  | urlError (inner : GoError) : GoError
  | netError (msg : String) : GoError
  | wrapped (msg : String) (inner : GoError) : GoError
  | simple (msg : String) : GoError
deriving DecidableEq, Repr

/-- `errors.Is(err, context.Canceled)`: walks the unwrap chain
(`*url.Error` and `fmt.Errorf %w` both unwrap). -/
def isCanceledErr : GoError → Bool
  | .canceled => true
  | .urlError i => isCanceledErr i
  | .wrapped _ i => isCanceledErr i
  | _ => false

/-- `errors.Is(err, context.DeadlineExceeded)`. -/
def isDeadlineErr : GoError → Bool
  | .deadlineExceeded => true
  | .urlError i => isDeadlineErr i
  | .wrapped _ i => isDeadlineErr i
  | _ => false

/-- `errors.As(err, &hs)` for `*HTTPStatusError`: first match in the unwrap
chain, returning its fields. -/
def asHTTPStatus : GoError → Option (Nat × List Nat)
  | .httpStatus c b => some (c, b)
  | .urlError i => asHTTPStatus i
  | .wrapped _ i => asHTTPStatus i
  | _ => none

/-- `errors.As(err, &ue)` for `*url.Error`: returns the wrapped cause
(`ue.Err`). -/
def asURLError : GoError → Option GoError
  | .urlError i => some i
  | .wrapped _ i => asURLError i
  | _ => none

/-- `errors.As(err, &ne)` for the `net.Error` interface.  `*url.Error` itself
implements `net.Error`, as does `context.DeadlineExceeded`; `context.Canceled`
and `*HTTPStatusError` do not. -/
def asNetError : GoError → Bool
  | .netError _ => true
  | .urlError _ => true
  | .deadlineExceeded => true
  | .wrapped _ i => asNetError i
  | _ => false

/-- `isRetryable` from client.go (the `resp` argument is ignored by the Go
function, so it is omitted here).  Mirrors the source line by line:
cancellation/deadline first, then `*HTTPStatusError` (429 or 5xx except 501),
then `*url.Error` (retryable unless its cause is a cancellation), then bare
`net.Error`, else not retryable. -/
def isRetryable (err : GoError) : Bool :=
  if isCanceledErr err || isDeadlineErr err then false
  else
    match asHTTPStatus err with
    | some (c, _) => c == 429 || (decide (500 ≤ c) && c != 501)
    | none =>
      match asURLError err with
      | some inner =>
        if isCanceledErr inner || isDeadlineErr inner then false
        else if asNetError inner then true else true
      | none => asNetError err

/-- Written from the spec's words (§4.4 retryability policy): a failure is a
transport/network-level failure when it is a `*url.Error` or a `net.Error`. -/
def isTransportLevel (err : GoError) : Bool :=
  (asURLError err).isSome || asNetError err

/-- Written from the spec's words (§4.4): retryable iff not a
cancellation/deadline signal, and: HTTP-status failure → 429 or
(≥ 500 and ≠ 501); transport/network-level failure → retryable; any other
class → not retryable. -/
def retryableSpec (err : GoError) : Bool :=
  !(isCanceledErr err || isDeadlineErr err) &&
    (match asHTTPStatus err with
     | some (c, _) => c == 429 || (decide (500 ≤ c) && c != 501)
     | none => isTransportLevel err)

/-! ## The DoJSON retry loop

`DoJSON` is modelled as a pure loop over:

* `outcomes k` — the result of the k-th call to `doOnce`
  (`none` = success, `some e` = failure with error `e`);
* `cancel k` — whether the context becomes done during the backoff wait that
  follows attempt `k` (`some ce` = `ctx.Err()` fires with value `ce`).

The loop records the fully-performed backoff waits and the number of attempts
executed.  Recursion is fuel-based (fuel = `retryAttempts`), matching the Go
`for attempt := 1; attempt <= c.retryAttempts; attempt++` loop: the
`attempt == retryAttempts` iteration always returns, so the fuel-exhausted
leaf corresponds exactly to Go's fall-through `return nil, nil, lastErr`.

Two variants are given.  `loopGo` carries the wait as a `Nat`; attempt
counts, retry decisions, cancellation, and the returned error do not depend
on the wait's numeric value, so this variant backs the claims about those.
In Go, however, `wait` is a `time.Duration` — a signed 64-bit integer that
wraps around on `wait *= 2` — so the claim about the wait values themselves
(C4) is stated over `loopGoD`, whose wait is an `Int` doubled through
`wrap64`, the two's-complement wrap-around of int64 arithmetic.
-/

structure LoopResult where
  result : Option GoError
  waits : List Nat
  attempts : Nat
deriving DecidableEq, Repr

def loopGo (maxA : Nat) (outcomes : Nat → Option GoError)
    (cancel : Nat → Option GoError) :
    Nat → Nat → Nat → Option GoError → LoopResult
  | 0, _, _, lastErr => ⟨lastErr, [], 0⟩
  | fuel + 1, attempt, wait, _ =>
    match outcomes attempt with
    | none => ⟨none, [], 1⟩
    | some e =>
      if !(isRetryable e) || attempt == maxA then ⟨some e, [], 1⟩
      else
        match cancel attempt with
        | some ce => ⟨some ce, [], 1⟩
        | none =>
          let r := loopGo maxA outcomes cancel fuel (attempt + 1) (wait * 2) (some e)
          ⟨r.result, wait :: r.waits, r.attempts + 1⟩

/-- `DoJSON` with `retryAttempts` attempts and initial `retryWait`, driven by
the attempt outcomes and the cancellation schedule. -/
def DoJSON (retryAttempts : Nat) (outcomes : Nat → Option GoError)
    (cancel : Nat → Option GoError) (retryWait : Nat) : LoopResult :=
  loopGo retryAttempts outcomes cancel retryAttempts 1 retryWait none

/-- Two's-complement wrap-around of signed 64-bit integer arithmetic: the
result of storing `x` in an int64 (`time.Duration`). -/
def wrap64 (x : Int) : Int := (x + 2 ^ 63) % 2 ^ 64 - 2 ^ 63

structure LoopResultD where
  result : Option GoError
  waits : List Int
  attempts : Nat
deriving DecidableEq, Repr

/-- The retry loop with the wait carried as a Go `time.Duration`: an int64
value that wraps around on `wait *= 2`.  Identical to `loopGo` otherwise. -/
def loopGoD (maxA : Nat) (outcomes : Nat → Option GoError)
    (cancel : Nat → Option GoError) :
    Nat → Nat → Int → Option GoError → LoopResultD
  | 0, _, _, lastErr => ⟨lastErr, [], 0⟩
  | fuel + 1, attempt, wait, _ =>
    match outcomes attempt with
    | none => ⟨none, [], 1⟩
    | some e =>
      if !(isRetryable e) || attempt == maxA then ⟨some e, [], 1⟩
      else
        match cancel attempt with
        | some ce => ⟨some ce, [], 1⟩
        | none =>
          let r := loopGoD maxA outcomes cancel fuel (attempt + 1)
            (wrap64 (wait * 2)) (some e)
          ⟨r.result, wait :: r.waits, r.attempts + 1⟩

/-- `DoJSON` with the wait tracked in int64 (`time.Duration`) arithmetic. -/
def DoJSOND (retryAttempts : Nat) (outcomes : Nat → Option GoError)
    (cancel : Nat → Option GoError) (retryWait : Int) : LoopResultD :=
  loopGoD retryAttempts outcomes cancel retryAttempts 1 retryWait none

/-! ### Loop lemmas -/

theorem isCanceledErr_of_asURLError {e i : GoError} (h : asURLError e = some i) :
    isCanceledErr e = isCanceledErr i := by
  induction e with
  | urlError j => simp [asURLError] at h; subst h; rfl
  | wrapped m j ih => simp [asURLError] at h; simp [isCanceledErr, ih h]
  | _ => simp [asURLError] at h

theorem isDeadlineErr_of_asURLError {e i : GoError} (h : asURLError e = some i) :
    isDeadlineErr e = isDeadlineErr i := by
  induction e with
  | urlError j => simp [asURLError] at h; subst h; rfl
  | wrapped m j ih => simp [asURLError] at h; simp [isDeadlineErr, ih h]
  | _ => simp [asURLError] at h

theorem isRetryable_eq_retryableSpec (e : GoError) :
    isRetryable e = retryableSpec e := by
  unfold isRetryable retryableSpec isTransportLevel
  cases hc : isCanceledErr e with
  | true => simp [hc]
  | false =>
    cases hd : isDeadlineErr e with
    | true => simp [hc, hd]
    | false =>
      simp only [hc, hd, Bool.or_self, Bool.false_or, Bool.not_false,
        Bool.true_and, if_false, Bool.or_false]
      cases hh : asHTTPStatus e with
      | some p => simp
      | none =>
        simp only []
        cases hu : asURLError e with
        | some inner =>
          have h1 := isCanceledErr_of_asURLError hu
          have h2 := isDeadlineErr_of_asURLError hu
          rw [hc] at h1; rw [hd] at h2
          simp [← h1, ← h2, hu]
        | none => simp [hu]

/-- Core loop run lemma: if every attempt in `[a, stop)` fails retryably with
no cancellation, and attempt `stop` fails with an error that is either
non-retryable or at the final allowed attempt, then the loop returns that
error having performed `stop + 1 - a` attempts and the doubling waits. -/
theorem loopGo_run (maxA : Nat) (outcomes : Nat → Option GoError)
    (cancel : Nat → Option GoError) (errs : Nat → GoError) (stop : Nat)
    (hstop : stop ≤ maxA)
    (hf : ∀ k, 1 ≤ k → k ≤ stop → outcomes k = some (errs k))
    (hr : ∀ k, 1 ≤ k → k < stop → isRetryable (errs k) = true)
    (hc : ∀ k, 1 ≤ k → k < stop → cancel k = none)
    (hlast : isRetryable (errs stop) = false ∨ stop = maxA) :
    ∀ fuel a w le, a + fuel = maxA + 1 → 1 ≤ a → a ≤ stop →
      loopGo maxA outcomes cancel fuel a w le =
        ⟨some (errs stop), (List.range (stop - a)).map (fun i => w * 2 ^ i),
          stop + 1 - a⟩ := by
  intro fuel
  induction fuel with
  | zero =>
    intro a w le hfa ha1 has
    omega
  | succ n ih =>
    intro a w le hfa ha1 has
    have hout : outcomes a = some (errs a) := hf a ha1 has
    by_cases hend : a = stop
    · subst hend
      rcases hlast with hnr | hmax
      · simp [loopGo, hout, hnr]
      · subst hmax
        simp [loopGo, hout]
    · have halt : a < stop := lt_of_le_of_ne has hend
      have hra : isRetryable (errs a) = true := hr a ha1 halt
      have hamax : a ≠ maxA := by omega
      have hcan : cancel a = none := hc a ha1 halt
      have hrec := ih (a + 1) (w * 2) (some (errs a)) (by omega) (by omega) (by omega)
      simp only [loopGo, hout, hra, Bool.not_true, Bool.false_or,
        beq_iff_eq, hamax, if_false, hcan, hrec]
      have hsub : stop - a = (stop - (a + 1)) + 1 := by omega
      simp only [LoopResult.mk.injEq]
      refine ⟨trivial, ?_, by omega⟩
      rw [hsub, List.range_succ_eq_map, List.map_cons, List.map_map]
      refine congrArg₂ List.cons (by simp) ?_
      apply List.map_congr_left
      intro i _
      simp only [Function.comp, pow_succ]
      ring

theorem DoJSON_all_retryable_fail (N W : Nat) (outcomes : Nat → Option GoError)
    (cancel : Nat → Option GoError) (errs : Nat → GoError)
    (hN : 1 ≤ N)
    (hf : ∀ k, 1 ≤ k → k ≤ N → outcomes k = some (errs k))
    (hr : ∀ k, 1 ≤ k → k ≤ N → isRetryable (errs k) = true)
    (hc : ∀ k, cancel k = none) :
    DoJSON N outcomes cancel W =
      ⟨some (errs N), (List.range (N - 1)).map (fun i => W * 2 ^ i), N⟩ := by
  have h := loopGo_run N outcomes cancel errs N (le_refl N) hf
    (fun k hk1 hk2 => hr k hk1 (le_of_lt hk2))
    (fun k _ _ => hc k) (Or.inr rfl) N 1 W none (by omega) (by omega) hN
  unfold DoJSON
  rw [h]
  simp

theorem DoJSON_stops_at_nonretryable (N W stop : Nat)
    (outcomes : Nat → Option GoError) (cancel : Nat → Option GoError)
    (errs : Nat → GoError)
    (h1 : 1 ≤ stop) (h2 : stop ≤ N)
    (hf : ∀ k, 1 ≤ k → k ≤ stop → outcomes k = some (errs k))
    (hr : ∀ k, 1 ≤ k → k < stop → isRetryable (errs k) = true)
    (hc : ∀ k, 1 ≤ k → k < stop → cancel k = none)
    (hnr : isRetryable (errs stop) = false) :
    DoJSON N outcomes cancel W =
      ⟨some (errs stop), (List.range (stop - 1)).map (fun i => W * 2 ^ i), stop⟩ := by
  have h := loopGo_run N outcomes cancel errs stop h2 hf hr hc (Or.inl hnr)
    N 1 W none (by omega) (by omega) h1
  unfold DoJSON
  rw [h]
  simp

/-- Cancellation arriving during the backoff wait after a retryable first
failure is returned immediately as `ctx.Err()`, with no further attempts. -/
theorem DoJSON_cancel_during_wait (N W : Nat) (outcomes : Nat → Option GoError)
    (cancel : Nat → Option GoError) (e ce : GoError)
    (hN : 2 ≤ N) (hout : outcomes 1 = some e) (hre : isRetryable e = true)
    (hcan : cancel 1 = some ce) :
    DoJSON N outcomes cancel W = ⟨some ce, [], 1⟩ := by
  obtain ⟨m, rfl⟩ : ∃ m, N = m + 2 := ⟨N - 2, by omega⟩
  have hne : (1 == m + 2) = false := by simp
  simp [DoJSON, loopGo, hout, hre, hne, hcan]

/-! ## Claim theorems: retry loop (C2, C3, C4) -/

/-- C2 — Retry classification: a failure inside DoJSON is retried iff it is
not a cancellation or deadline-exceeded signal and it is either an
`HTTPStatusError` with status 429 or ≥ 500 but ≠ 501, or a transport/network
level error; every other class is not retryable (shown as equivalence of the
code's `isRetryable` with the spec-side predicate, plus the spec's concrete
classification table), and a cancellation arriving during the backoff wait is
returned immediately. -/
theorem C2_retry_classification :
    (∀ e, isRetryable e = retryableSpec e) ∧
    isRetryable (.httpStatus 500 []) = true ∧
    isRetryable (.httpStatus 501 []) = false ∧
    isRetryable (.httpStatus 429 []) = true ∧
    isRetryable (.httpStatus 400 []) = false ∧
    isRetryable (.httpStatus 404 []) = false ∧
    isRetryable (.urlError (.netError "connection refused")) = true ∧
    isRetryable .canceled = false ∧
    isRetryable .deadlineExceeded = false ∧
    (∀ N W outcomes cancel e ce, 2 ≤ N → outcomes 1 = some e →
      isRetryable e = true → cancel 1 = some ce →
      DoJSON N outcomes cancel W = ⟨some ce, [], 1⟩) :=
  ⟨isRetryable_eq_retryableSpec, by decide, by decide, by decide, by decide,
    by decide, by decide, by decide, by decide,
    fun N W outcomes cancel e ce hN hout hre hcan =>
      DoJSON_cancel_during_wait N W outcomes cancel e ce hN hout hre hcan⟩

/-- Witness for C2 at concrete inputs: a DoJSON call whose first attempt
fails with HTTP 500 (retryable) and whose context is cancelled during the
first backoff wait returns the cancellation immediately after one attempt. -/
theorem C2_witness :
    (fun _ : Nat => some (GoError.httpStatus 500 [])) 1 =
        some (GoError.httpStatus 500 []) ∧
    isRetryable (GoError.httpStatus 500 []) = true ∧
    DoJSON 3 (fun _ => some (GoError.httpStatus 500 []))
        (fun _ => some GoError.canceled) 7 = ⟨some GoError.canceled, [], 1⟩ :=
  ⟨rfl, by decide,
    C2_retry_classification.2.2.2.2.2.2.2.2.2 3 7
      (fun _ => some (GoError.httpStatus 500 []))
      (fun _ => some GoError.canceled)
      (GoError.httpStatus 500 []) GoError.canceled
      (by omega) rfl (by decide) rfl⟩

/-- C3 — Attempt exhaustion: with `maxAttempts = N ≥ 1` and every attempt
failing retryably, DoJSON performs exactly `N` attempts and returns the final
attempt's failure; and a non-retryable failure on the first attempt is
returned immediately after exactly one attempt. -/
theorem C3_attempt_exhaustion :
    (∀ (N W : Nat) (outcomes cancel : Nat → Option GoError)
        (errs : Nat → GoError), 1 ≤ N →
      (∀ k, 1 ≤ k → k ≤ N → outcomes k = some (errs k)) →
      (∀ k, 1 ≤ k → k ≤ N → isRetryable (errs k) = true) →
      (∀ k, cancel k = none) →
      DoJSON N outcomes cancel W =
        ⟨some (errs N), (List.range (N - 1)).map (fun i => W * 2 ^ i), N⟩) ∧
    (∀ (N W : Nat) (outcomes cancel : Nat → Option GoError) (e : GoError),
      1 ≤ N → outcomes 1 = some e → isRetryable e = false →
      DoJSON N outcomes cancel W = ⟨some e, [], 1⟩) := by
  constructor
  · intro N W outcomes cancel errs hN hf hr hc
    exact DoJSON_all_retryable_fail N W outcomes cancel errs hN hf hr hc
  · intro N W outcomes cancel e hN hout hnr
    have h := DoJSON_stops_at_nonretryable N W 1 outcomes cancel (fun _ => e)
      (by omega) hN
      (fun k hk1 hk2 => by
        have hk : k = 1 := by omega
        subst hk; exact hout)
      (fun k hk1 hk2 => by omega) (fun k hk1 hk2 => by omega) hnr
    simpa using h

/-- Witness for C3: three max attempts against a handler that always fails
with HTTP 500 yields exactly 3 attempts and the status-500 error; a first
attempt failing with HTTP 400 (non-retryable) ends the call after 1 attempt. -/
theorem C3_witness :
    (1 : Nat) ≤ 3 ∧
    DoJSON 3 (fun _ => some (GoError.httpStatus 500 [])) (fun _ => none) 5 =
      ⟨some (GoError.httpStatus 500 []), [5, 10], 3⟩ ∧
    DoJSON 3 (fun _ => some (GoError.httpStatus 400 [])) (fun _ => none) 5 =
      ⟨some (GoError.httpStatus 400 []), [], 1⟩ := by
  refine ⟨by omega, ?_, ?_⟩
  · have h := C3_attempt_exhaustion.1 3 5
      (fun _ => some (GoError.httpStatus 500 [])) (fun _ => none)
      (fun _ => GoError.httpStatus 500 []) (by omega)
      (fun k _ _ => rfl)
      (fun k _ _ => (by decide : isRetryable (GoError.httpStatus 500 []) = true))
      (fun k => rfl)
    rw [h]; decide
  · exact C3_attempt_exhaustion.2 3 5
      (fun _ => some (GoError.httpStatus 400 [])) (fun _ => none)
      (GoError.httpStatus 400 []) (by omega) rfl (by decide)

theorem wrap64_eq_self (x : Int) (h0 : 0 ≤ x) (h1 : x < 2 ^ 63) :
    wrap64 x = x := by
  unfold wrap64
  have e63 : (2 : Int) ^ 63 = 9223372036854775808 := by norm_num
  have e64 : (2 : Int) ^ 64 = 18446744073709551616 := by norm_num
  rw [e63] at h1
  rw [e63, e64]
  rw [Int.emod_eq_of_lt (by omega) (by omega)]
  omega

/-- `loopGo_run` for the int64-faithful loop: as long as the doubled wait
stays below 2^63 (no int64 overflow), each `wrap64` is the identity and the
waits double exactly. -/
theorem loopGoD_run (maxA : Nat) (outcomes : Nat → Option GoError)
    (cancel : Nat → Option GoError) (errs : Nat → GoError) (stop : Nat)
    (hstop : stop ≤ maxA)
    (hf : ∀ k, 1 ≤ k → k ≤ stop → outcomes k = some (errs k))
    (hr : ∀ k, 1 ≤ k → k < stop → isRetryable (errs k) = true)
    (hc : ∀ k, 1 ≤ k → k < stop → cancel k = none)
    (hlast : isRetryable (errs stop) = false ∨ stop = maxA) :
    ∀ fuel a (w : Int) le, a + fuel = maxA + 1 → 1 ≤ a → a ≤ stop →
      0 ≤ w → w * 2 ^ (stop - a) < 2 ^ 63 →
      loopGoD maxA outcomes cancel fuel a w le =
        ⟨some (errs stop), (List.range (stop - a)).map (fun i => w * 2 ^ i),
          stop + 1 - a⟩ := by
  intro fuel
  induction fuel with
  | zero =>
    intro a w le hfa ha1 has _ _
    omega
  | succ n ih =>
    intro a w le hfa ha1 has hw0 hbound
    have hout : outcomes a = some (errs a) := hf a ha1 has
    by_cases hend : a = stop
    · subst hend
      rcases hlast with hnr | hmax
      · simp [loopGoD, hout, hnr]
      · subst hmax
        simp [loopGoD, hout]
    · have halt : a < stop := lt_of_le_of_ne has hend
      have hra : isRetryable (errs a) = true := hr a ha1 halt
      have hamax : a ≠ maxA := by omega
      have hcan : cancel a = none := hc a ha1 halt
      have hpow2 : (2 : Int) ^ 1 ≤ 2 ^ (stop - a) :=
        pow_le_pow_right₀ (by omega) (by omega)
      have hw2le : w * 2 ≤ w * 2 ^ (stop - a) :=
        mul_le_mul_of_nonneg_left (by simpa using hpow2) hw0
      have hw2 : w * 2 < 2 ^ 63 := lt_of_le_of_lt hw2le hbound
      have hwrap : wrap64 (w * 2) = w * 2 := wrap64_eq_self _ (by omega) hw2
      have hbound2 : (w * 2) * 2 ^ (stop - (a + 1)) < 2 ^ 63 := by
        have heq : (w * 2) * 2 ^ (stop - (a + 1)) = w * 2 ^ (stop - a) := by
          rw [show stop - a = (stop - (a + 1)) + 1 from by omega, pow_succ]
          ring
        rw [heq]
        exact hbound
      have hrec := ih (a + 1) (w * 2) (some (errs a)) (by omega) (by omega)
        (by omega) (by omega) hbound2
      simp only [loopGoD, hout, hra, Bool.not_true, Bool.false_or,
        beq_iff_eq, hamax, if_false, hcan, hwrap, hrec]
      have hsub : stop - a = (stop - (a + 1)) + 1 := by omega
      simp only [LoopResultD.mk.injEq]
      refine ⟨trivial, ?_, by omega⟩
      rw [hsub, List.range_succ_eq_map, List.map_cons, List.map_map]
      refine congrArg₂ List.cons (by simp) ?_
      apply List.map_congr_left
      intro i _
      simp only [Function.comp, pow_succ]
      ring

/-- C4 — Backoff doubling: the wait is a Go `time.Duration` (int64, wrapping
on `wait *= 2`, modelled by `loopGoD`/`wrap64`).  With initial wait `W ≥ 0`
and all `N` attempts failing retryably, provided the largest doubled value
`W·2^(N-1)` stays below 2^63 (no int64 overflow — the only bound there is;
the code applies no cap of its own), the waits performed are exactly
`W·2^0, W·2^1, …`: the k-th wait (1-indexed, performed before attempt k+1)
equals `W·2^(k-1)`. -/
theorem C4_backoff_doubling (N : Nat) (W : Int)
    (outcomes : Nat → Option GoError) (cancel : Nat → Option GoError)
    (errs : Nat → GoError)
    (hN : 1 ≤ N) (hW0 : 0 ≤ W) (hbound : W * 2 ^ (N - 1) < 2 ^ 63)
    (hf : ∀ k, 1 ≤ k → k ≤ N → outcomes k = some (errs k))
    (hr : ∀ k, 1 ≤ k → k ≤ N → isRetryable (errs k) = true)
    (hc : ∀ k, cancel k = none) :
    (DoJSOND N outcomes cancel W).waits =
      (List.range (N - 1)).map (fun i => W * 2 ^ i) ∧
    ∀ k, 1 ≤ k → k ≤ N - 1 →
      ((DoJSOND N outcomes cancel W).waits)[k - 1]? = some (W * 2 ^ (k - 1)) := by
  have h := loopGoD_run N outcomes cancel errs N (le_refl N) hf
    (fun k hk1 hk2 => hr k hk1 (le_of_lt hk2))
    (fun k _ _ => hc k) (Or.inr rfl) N 1 W none (by omega) (by omega) hN hW0
    (by simpa using hbound)
  unfold DoJSOND
  rw [h]
  refine ⟨rfl, ?_⟩
  intro k hk1 hk2
  have hlt : k - 1 < N - 1 := by omega
  simp [List.getElem?_map, List.getElem?_range, hlt]

/-- Witness for C4: three attempts, initial wait 5 (within the int64 bound:
5·2^2 < 2^63) → waits [5, 10], and the 2nd wait is 5·2^1 = 10. -/
theorem C4_witness :
    (1 : Nat) ≤ 3 ∧ (0 : Int) ≤ 5 ∧ (5 : Int) * 2 ^ (3 - 1) < 2 ^ 63 ∧
    (DoJSOND 3 (fun _ => some (GoError.httpStatus 503 [])) (fun _ => none) 5).waits
      = [5, 10] ∧
    ((DoJSOND 3 (fun _ => some (GoError.httpStatus 503 [])) (fun _ => none) 5).waits)[1]?
      = some 10 := by
  have h := C4_backoff_doubling 3 5
    (fun _ => some (GoError.httpStatus 503 [])) (fun _ => none)
    (fun _ => GoError.httpStatus 503 []) (by omega) (by omega) (by norm_num)
    (fun k _ _ => rfl)
    (fun k _ _ => (by decide : isRetryable (GoError.httpStatus 503 []) = true))
    (fun k => rfl)
  refine ⟨by omega, by omega, by norm_num, ?_, ?_⟩
  · rw [h.1]
    decide
  · have h2 := h.2 2 (by omega) (by omega)
    norm_num at h2
    exact h2

/-! ## Base64 (Go `encoding/base64`, standard and raw alphabets)

`RSASigner.Sign` emits `base64.StdEncoding.EncodeToString`;
`decodeSignatureBase64` tries `StdEncoding.DecodeString` and then
`RawStdEncoding.DecodeString`.  Bytes are `Nat < 256`, strings are
`List Char`.  Go's default (non-strict) decoders are modelled: trailing
unused bits are discarded, `=` is allowed only as final padding in the
standard decoder and is an invalid character for the raw decoder. -/

def b64char (i : Nat) : Char :=
  if i < 26 then Char.ofNat (65 + i)
  else if i < 52 then Char.ofNat (97 + (i - 26))
  else if i < 62 then Char.ofNat (48 + (i - 52))
  else if i = 62 then '+'
  else '/'

def b64index (c : Char) : Option Nat :=
  if 'A' ≤ c ∧ c ≤ 'Z' then some (c.toNat - 65)
  else if 'a' ≤ c ∧ c ≤ 'z' then some (c.toNat - 97 + 26)
  else if '0' ≤ c ∧ c ≤ '9' then some (c.toNat - 48 + 52)
  else if c = '+' then some 62
  else if c = '/' then some 63
  else none

/-- `base64.StdEncoding.EncodeToString` (standard alphabet, `=` padding). -/
def b64encodeStd : List Nat → List Char
  | [] => []
  | [a] => [b64char (a / 4), b64char (a % 4 * 16), '=', '=']
  | [a, b] => [b64char (a / 4), b64char (a % 4 * 16 + b / 16), b64char (b % 16 * 4), '=']
  | a :: b :: c :: rest =>
    b64char (a / 4) :: b64char (a % 4 * 16 + b / 16) ::
      b64char (b % 16 * 4 + c / 64) :: b64char (c % 64) :: b64encodeStd rest

/-- `base64.RawStdEncoding.EncodeToString` (standard alphabet, no padding). -/
def b64encodeRaw : List Nat → List Char
  | [] => []
  | [a] => [b64char (a / 4), b64char (a % 4 * 16)]
  | [a, b] => [b64char (a / 4), b64char (a % 4 * 16 + b / 16), b64char (b % 16 * 4)]
  | a :: b :: c :: rest =>
    b64char (a / 4) :: b64char (a % 4 * 16 + b / 16) ::
      b64char (b % 16 * 4 + c / 64) :: b64char (c % 64) :: b64encodeRaw rest

/-- `base64.StdEncoding.DecodeString` (Go default, non-strict: unused
trailing bits are ignored; `=` only as final padding; length must be a
multiple of 4). -/
def b64decodeStd : List Char → Option (List Nat)
  | [] => some []
  | c1 :: c2 :: c3 :: c4 :: rest =>
    match b64index c1, b64index c2 with
    | some s1, some s2 =>
      if c3 = '=' then
        if c4 = '=' ∧ rest = [] then some [s1 * 4 + s2 / 16] else none
      else
        match b64index c3 with
        | some s3 =>
          if c4 = '=' then
            if rest = [] then some [s1 * 4 + s2 / 16, s2 % 16 * 16 + s3 / 4]
            else none
          else
            match b64index c4, b64decodeStd rest with
            | some s4, some tail =>
              some ((s1 * 4 + s2 / 16) :: (s2 % 16 * 16 + s3 / 4) ::
                (s3 % 4 * 64 + s4) :: tail)
            | _, _ => none
        | none => none
    | _, _ => none
  | _ => none

/-- `base64.RawStdEncoding.DecodeString` (no padding; a final group of 2 or 3
characters is allowed, a final group of 1 is not; `=` is invalid). -/
def b64decodeRaw : List Char → Option (List Nat)
  | [] => some []
  | [_] => none
  | [c1, c2] =>
    match b64index c1, b64index c2 with
    | some s1, some s2 => some [s1 * 4 + s2 / 16]
    | _, _ => none
  | [c1, c2, c3] =>
    match b64index c1, b64index c2, b64index c3 with
    | some s1, some s2, some s3 =>
      some [s1 * 4 + s2 / 16, s2 % 16 * 16 + s3 / 4]
    | _, _, _ => none
  | c1 :: c2 :: c3 :: c4 :: rest =>
    match b64index c1, b64index c2, b64index c3, b64index c4, b64decodeRaw rest with
    | some s1, some s2, some s3, some s4, some tail =>
      some ((s1 * 4 + s2 / 16) :: (s2 % 16 * 16 + s3 / 4) :: (s3 % 4 * 64 + s4) :: tail)
    | _, _, _, _, _ => none

/-- Strip all trailing `=` characters (what a padding-stripping proxy does). -/
def stripTrailingEq (s : List Char) : List Char :=
  (s.reverse.dropWhile (fun c => c = '=')).reverse

/-- ASCII whitespace as trimmed by `strings.TrimSpace`. -/
def isSpaceChar (c : Char) : Bool :=
  c = ' ' || c = '\t' || c = '\n' || c = '\x0d' || c = '\x0b' || c = '\x0c'

/-- `strings.TrimSpace`. -/
def trimChars (s : List Char) : List Char :=
  ((s.dropWhile isSpaceChar).reverse.dropWhile isSpaceChar).reverse

/-! ### Base64 facts -/

theorem b64index_b64char : ∀ i, i < 64 → b64index (b64char i) = some i := by decide

theorem b64char_ne_pad : ∀ i, i < 64 → b64char i ≠ '=' := by decide

theorem b64char_not_space : ∀ i, i < 64 → isSpaceChar (b64char i) = false := by decide

theorem pad_not_space : isSpaceChar '=' = false := by decide

theorem b64decodeStd_encodeStd :
    ∀ bs : List Nat, (∀ x ∈ bs, x < 256) →
      b64decodeStd (b64encodeStd bs) = some bs := by
  intro bs
  induction bs using b64encodeStd.induct with
  | case1 =>
    intro _
    rfl
  | case2 a =>
    intro h
    have ha : a < 256 := h a (by simp)
    have h1 := b64index_b64char (a / 4) (by omega)
    have h2 := b64index_b64char (a % 4 * 16) (by omega)
    simp [b64encodeStd, b64decodeStd, h1, h2]
    omega
  | case3 a b =>
    intro h
    have ha : a < 256 := h a (by simp)
    have hb : b < 256 := h b (by simp)
    have h1 := b64index_b64char (a / 4) (by omega)
    have h2 := b64index_b64char (a % 4 * 16 + b / 16) (by omega)
    have h3 := b64index_b64char (b % 16 * 4) (by omega)
    have hne3 := b64char_ne_pad (b % 16 * 4) (by omega)
    simp [b64encodeStd, b64decodeStd, h1, h2, h3, hne3]
    constructor
    · omega
    · omega
  | case4 a b c rest ih =>
    intro h
    have ha : a < 256 := h a (by simp)
    have hb : b < 256 := h b (by simp)
    have hcl : c < 256 := h c (by simp)
    have hrest : ∀ x ∈ rest, x < 256 := fun x hx => h x (by simp [hx])
    have h1 := b64index_b64char (a / 4) (by omega)
    have h2 := b64index_b64char (a % 4 * 16 + b / 16) (by omega)
    have h3 := b64index_b64char (b % 16 * 4 + c / 64) (by omega)
    have h4 := b64index_b64char (c % 64) (by omega)
    have hne3 := b64char_ne_pad (b % 16 * 4 + c / 64) (by omega)
    have hne4 := b64char_ne_pad (c % 64) (by omega)
    simp [b64encodeStd, b64decodeStd, h1, h2, h3, h4, hne3, hne4, ih hrest]
    refine ⟨by omega, by omega, by omega⟩

theorem b64decodeRaw_encodeRaw :
    ∀ bs : List Nat, (∀ x ∈ bs, x < 256) →
      b64decodeRaw (b64encodeRaw bs) = some bs := by
  intro bs
  induction bs using b64encodeRaw.induct with
  | case1 =>
    intro _
    rfl
  | case2 a =>
    intro h
    have ha : a < 256 := h a (by simp)
    have h1 := b64index_b64char (a / 4) (by omega)
    have h2 := b64index_b64char (a % 4 * 16) (by omega)
    simp [b64encodeRaw, b64decodeRaw, h1, h2]
    omega
  | case3 a b =>
    intro h
    have ha : a < 256 := h a (by simp)
    have hb : b < 256 := h b (by simp)
    have h1 := b64index_b64char (a / 4) (by omega)
    have h2 := b64index_b64char (a % 4 * 16 + b / 16) (by omega)
    have h3 := b64index_b64char (b % 16 * 4) (by omega)
    simp [b64encodeRaw, b64decodeRaw, h1, h2, h3]
    constructor
    · omega
    · omega
  | case4 a b c rest ih =>
    intro h
    have ha : a < 256 := h a (by simp)
    have hb : b < 256 := h b (by simp)
    have hcl : c < 256 := h c (by simp)
    have hrest : ∀ x ∈ rest, x < 256 := fun x hx => h x (by simp [hx])
    have h1 := b64index_b64char (a / 4) (by omega)
    have h2 := b64index_b64char (a % 4 * 16 + b / 16) (by omega)
    have h3 := b64index_b64char (b % 16 * 4 + c / 64) (by omega)
    have h4 := b64index_b64char (c % 64) (by omega)
    simp [b64encodeRaw, b64decodeRaw, h1, h2, h3, h4, ih hrest]
    refine ⟨by omega, by omega, by omega⟩

/-- Decoding an unpadded encoding with the standard (padded) decoder either
fails (length not a multiple of 4) or yields the same bytes (length was a
multiple of 4, so no padding had been stripped). -/
theorem b64decodeStd_encodeRaw :
    ∀ bs : List Nat, (∀ x ∈ bs, x < 256) →
      b64decodeStd (b64encodeRaw bs) = some bs ∨
        b64decodeStd (b64encodeRaw bs) = none := by
  intro bs
  induction bs using b64encodeRaw.induct with
  | case1 =>
    intro _
    left; rfl
  | case2 a =>
    intro _
    right; rfl
  | case3 a b =>
    intro _
    right; rfl
  | case4 a b c rest ih =>
    intro h
    have ha : a < 256 := h a (by simp)
    have hb : b < 256 := h b (by simp)
    have hcl : c < 256 := h c (by simp)
    have hrest : ∀ x ∈ rest, x < 256 := fun x hx => h x (by simp [hx])
    have h1 := b64index_b64char (a / 4) (by omega)
    have h2 := b64index_b64char (a % 4 * 16 + b / 16) (by omega)
    have h3 := b64index_b64char (b % 16 * 4 + c / 64) (by omega)
    have h4 := b64index_b64char (c % 64) (by omega)
    have hne3 := b64char_ne_pad (b % 16 * 4 + c / 64) (by omega)
    have hne4 := b64char_ne_pad (c % 64) (by omega)
    rcases ih hrest with htail | htail
    · left
      simp [b64encodeRaw, b64decodeStd, h1, h2, h3, h4, hne3, hne4, htail]
      refine ⟨by omega, by omega, by omega⟩
    · right
      simp [b64encodeRaw, b64decodeStd, h1, h2, h3, h4, hne3, hne4, htail]

theorem stripTrailingEq_concat_ne (l : List Char) (z : Char) (hz : z ≠ '=') :
    stripTrailingEq (l ++ [z]) = l ++ [z] := by
  unfold stripTrailingEq
  rw [List.reverse_append]
  simp [List.dropWhile_cons, hz]

theorem stripTrailingEq_append (s t : List Char) :
    stripTrailingEq (s ++ t) =
      if stripTrailingEq t = [] then stripTrailingEq s else s ++ stripTrailingEq t := by
  unfold stripTrailingEq
  rw [List.reverse_append, List.dropWhile_append]
  by_cases hE : (t.reverse.dropWhile (fun c => decide (c = '='))) = []
  · simp [hE]
  · have hne : (t.reverse.dropWhile (fun c => decide (c = '='))).isEmpty = false := by
      simpa [List.isEmpty_iff] using hE
    have hne2 : ¬ (t.reverse.dropWhile (fun c => decide (c = '='))).reverse = [] := by
      simpa using hE
    simp [hne, hne2]

theorem b64encodeRaw_ne_nil (bs : List Nat) (h : bs ≠ []) :
    b64encodeRaw bs ≠ [] := by
  match bs with
  | [] => exact absurd rfl h
  | [a] => simp [b64encodeRaw]
  | [a, b] => simp [b64encodeRaw]
  | a :: b :: c :: rest => simp [b64encodeRaw]

/-- Stripping the trailing `=` padding from a standard encoding yields the
raw (unpadded) encoding. -/
theorem stripTrailingEq_encodeStd :
    ∀ bs : List Nat, (∀ x ∈ bs, x < 256) →
      stripTrailingEq (b64encodeStd bs) = b64encodeRaw bs := by
  intro bs
  induction bs using b64encodeStd.induct with
  | case1 =>
    intro _
    rfl
  | case2 a =>
    intro h
    have ha : a < 256 := h a (by simp)
    have hne2 := b64char_ne_pad (a % 4 * 16) (by omega)
    show stripTrailingEq ([b64char (a / 4), b64char (a % 4 * 16)] ++ ['=', '=']) =
      [b64char (a / 4), b64char (a % 4 * 16)]
    rw [stripTrailingEq_append]
    have hpadpad : stripTrailingEq ['=', '='] = [] := by decide
    rw [if_pos hpadpad]
    exact stripTrailingEq_concat_ne [b64char (a / 4)] _ hne2
  | case3 a b =>
    intro h
    have ha : a < 256 := h a (by simp)
    have hb : b < 256 := h b (by simp)
    have hne3 := b64char_ne_pad (b % 16 * 4) (by omega)
    show stripTrailingEq
      (([b64char (a / 4), b64char (a % 4 * 16 + b / 16)] ++ [b64char (b % 16 * 4)]) ++ ['=']) = _
    rw [stripTrailingEq_append]
    have hpad : stripTrailingEq ['='] = [] := by decide
    rw [if_pos hpad]
    rw [stripTrailingEq_concat_ne _ _ hne3]
    rfl
  | case4 a b c rest ih =>
    intro h
    have hcl : c < 256 := h c (by simp)
    have hrest : ∀ x ∈ rest, x < 256 := fun x hx => h x (by simp [hx])
    have hne4 := b64char_ne_pad (c % 64) (by omega)
    show stripTrailingEq
      ((b64char (a / 4) :: b64char (a % 4 * 16 + b / 16) ::
        b64char (b % 16 * 4 + c / 64) :: [b64char (c % 64)]) ++ b64encodeStd rest) = _
    rw [stripTrailingEq_append]
    by_cases hrnil : rest = []
    · subst hrnil
      have hnil : stripTrailingEq (b64encodeStd []) = [] := by decide
      rw [if_pos hnil]
      have := stripTrailingEq_concat_ne
        [b64char (a / 4), b64char (a % 4 * 16 + b / 16), b64char (b % 16 * 4 + c / 64)]
        (b64char (c % 64)) hne4
      simpa [b64encodeRaw] using this
    · rw [ih hrest]
      have hnn : b64encodeRaw rest ≠ [] := b64encodeRaw_ne_nil rest hrnil
      rw [if_neg hnn]
      rfl

theorem dropWhile_append_all_true {p : Char → Bool} :
    ∀ (ws t : List Char), (∀ c ∈ ws, p c = true) →
      List.dropWhile p (ws ++ t) = List.dropWhile p t := by
  intro ws
  induction ws with
  | nil => intro t _; rfl
  | cons c ws ih =>
    intro t h
    have hc : p c = true := h c (by simp)
    simp only [List.cons_append, List.dropWhile_cons, hc, if_true]
    exact ih t (fun d hd => h d (by simp [hd]))

theorem dropWhile_all_false {p : Char → Bool} :
    ∀ (l : List Char), (∀ c ∈ l, p c = false) → List.dropWhile p l = l := by
  intro l
  induction l with
  | nil => intro _; rfl
  | cons c l ih =>
    intro h
    have hc : p c = false := h c (by simp)
    simp only [List.dropWhile_cons, hc]
    simp

/-- `strings.TrimSpace` removes exactly the surrounding whitespace when the
wrapped text itself contains no whitespace characters. -/
theorem trimChars_sandwich (ws e ws' : List Char)
    (hws : ∀ c ∈ ws, isSpaceChar c = true)
    (hws' : ∀ c ∈ ws', isSpaceChar c = true)
    (he : ∀ c ∈ e, isSpaceChar c = false) :
    trimChars (ws ++ e ++ ws') = e := by
  unfold trimChars
  rw [List.append_assoc, dropWhile_append_all_true ws (e ++ ws') hws]
  cases e with
  | nil =>
    have h1 : List.dropWhile isSpaceChar ws' = [] := by
      have h2 := dropWhile_append_all_true ws' [] hws'
      rw [List.append_nil] at h2
      exact h2
    simp [h1]
  | cons c e' =>
    have hc : isSpaceChar c = false := he c (by simp)
    simp only [List.cons_append, List.dropWhile_cons, hc]
    simp only [Bool.false_eq_true, if_false]
    rw [List.reverse_cons, List.reverse_append, List.append_assoc]
    rw [dropWhile_append_all_true ws'.reverse (e'.reverse ++ [c])
      (fun d hd => hws' d (by simpa using hd))]
    rw [dropWhile_all_false (e'.reverse ++ [c])
      (fun d hd => by
        rcases List.mem_append.mp hd with h1 | h1
        · exact he d (by simp [List.mem_reverse.mp h1])
        · simp at h1; subst h1; exact hc)]
    simp

/-! ## Big-endian byte encoding of naturals

`rsa.SignPKCS1v15` returns the signature as a big-endian byte slice of
exactly `k = (N.BitLen() + 7) / 8` bytes; `rsa.VerifyPKCS1v15` rejects a
signature slice whose length differs from `k`. -/

def bitLenAux : Nat → Nat → Nat
  | 0, _ => 0
  | fuel + 1, n => if n = 0 then 0 else bitLenAux fuel (n / 2) + 1

/-- `big.Int.BitLen` for naturals. -/
def bitLen (n : Nat) : Nat := bitLenAux (n + 1) n

/-- Modulus size in bytes, `k = (BitLen(N) + 7) / 8`. -/
def byteLen (n : Nat) : Nat := (bitLen n + 7) / 8

/-- Fixed-width big-endian bytes of `x` (width `k`). -/
def natToBeBytes : Nat → Nat → List Nat
  | 0, _ => []
  | k + 1, x => natToBeBytes k (x / 256) ++ [x % 256]

/-- Big-endian bytes to natural. -/
def beBytesToNat (bs : List Nat) : Nat := bs.foldl (fun a b => a * 256 + b) 0

theorem bitLenAux_spec :
    ∀ fuel n, n ≤ fuel → n < 2 ^ bitLenAux fuel n := by
  intro fuel
  induction fuel with
  | zero =>
    intro n hn
    interval_cases n
    simp [bitLenAux]
  | succ m ih =>
    intro n hn
    by_cases h0 : n = 0
    · subst h0; simp [bitLenAux]
    · have hrec : n / 2 < 2 ^ bitLenAux m (n / 2) := ih (n / 2) (by omega)
      simp only [bitLenAux, h0, if_false]
      have : 2 ^ (bitLenAux m (n / 2) + 1) = 2 * 2 ^ bitLenAux m (n / 2) := by ring
      omega

theorem lt_two_pow_bitLen (n : Nat) : n < 2 ^ bitLen n :=
  bitLenAux_spec (n + 1) n (by omega)

theorem lt_pow256_byteLen (n : Nat) : n < 256 ^ byteLen n := by
  have h1 := lt_two_pow_bitLen n
  have h2 : 2 ^ bitLen n ≤ 2 ^ (8 * byteLen n) := by
    apply Nat.pow_le_pow_right (by omega)
    unfold byteLen
    omega
  have h3 : (256 : Nat) ^ byteLen n = 2 ^ (8 * byteLen n) := by
    rw [show (256 : Nat) = 2 ^ 8 from rfl, ← pow_mul]
  omega

theorem byteLen_pos (n : Nat) (h : 1 ≤ n) : 1 ≤ byteLen n := by
  unfold byteLen bitLen
  obtain ⟨m, rfl⟩ : ∃ m, n = m + 1 := ⟨n - 1, by omega⟩
  simp [bitLenAux]
  omega

theorem natToBeBytes_length (k x : Nat) : (natToBeBytes k x).length = k := by
  induction k generalizing x with
  | zero => rfl
  | succ m ih => simp [natToBeBytes, ih]

theorem natToBeBytes_lt (k x : Nat) : ∀ b ∈ natToBeBytes k x, b < 256 := by
  induction k generalizing x with
  | zero => intro b hb; simp [natToBeBytes] at hb
  | succ m ih =>
    intro b hb
    simp only [natToBeBytes, List.mem_append, List.mem_singleton] at hb
    rcases hb with hb | hb
    · exact ih (x / 256) b hb
    · subst hb; omega

theorem beBytesToNat_append_singleton (l : List Nat) (b : Nat) :
    beBytesToNat (l ++ [b]) = beBytesToNat l * 256 + b := by
  unfold beBytesToNat
  rw [List.foldl_append]
  rfl

theorem beBytesToNat_natToBeBytes (k x : Nat) (h : x < 256 ^ k) :
    beBytesToNat (natToBeBytes k x) = x := by
  induction k generalizing x with
  | zero =>
    simp at h
    subst h
    rfl
  | succ m ih =>
    have hdiv : x / 256 < 256 ^ m := by
      rw [pow_succ] at h
      omega
    simp only [natToBeBytes, beBytesToNat_append_singleton, ih (x / 256) hdiv]
    omega

/-! ## Signature engine (`internal/signature`)

The hash functions (`sha256.Sum256`, `sha1.Sum`) and the PKCS#1 v1.5
DigestInfo padding (`pkcs1v15HashInfo` + EMSA encoding inside
`rsa.SignPKCS1v15`/`VerifyPKCS1v15`) belong to the Go standard library, not
to this repository; they are abstracted as the parameters of a
`CryptoModel`.  `pad h sum` is the padded message representative `em`
interpreted as a natural number; RSA itself is `m ^ d % n` / `s ^ e % n`. -/

inductive CHash where
  | SHA256 : CHash
  | SHA1 : CHash
deriving DecidableEq, Repr

structure CryptoModel where
  sha256 : List Nat → List Nat
  sha1 : List Nat → List Nat
  pad : CHash → List Nat → Nat

/-- `digest` from signature.go: selects the hash by algorithm name.  The Go
switch `case HashSHA256, "", "sha256", "SHA256"` / `case HashSHA1, "sha1",
"SHA1"` becomes an if-chain over the same string sets. -/
def digest (cm : CryptoModel) (algo : String) (data : List Nat) :
    Except String (CHash × List Nat) :=
  if algo = "SHA-256" ∨ algo = "" ∨ algo = "sha256" ∨ algo = "SHA256" then
    Except.ok (CHash.SHA256, cm.sha256 data)
  else if algo = "SHA-1" ∨ algo = "sha1" ∨ algo = "SHA1" then
    Except.ok (CHash.SHA1, cm.sha1 data)
  else
    Except.error ("unsupported signature hash algorithm: \x22" ++ algo ++ "\x22")

structure RSAPrivateKey where
  n : Nat
  d : Nat
deriving DecidableEq, Repr

structure RSAPublicKey where
  n : Nat
  e : Nat
deriving DecidableEq, Repr

/-- `RSASigner` from signature.go: optional private/public key and the
configured hash algorithm name. -/
structure RSASignerM where
  priv : Option RSAPrivateKey
  pub : Option RSAPublicKey
  hash : String

/-- `RSASigner.Sign`: digest, PKCS#1 v1.5 pad, RSA exponentiation with the
private exponent, standard base64.  (A message representative that does not
fit below the modulus is the Go `ErrMessageTooLong` case.) -/
def RSASignerM.Sign (cm : CryptoModel) (s : RSASignerM) (body : List Nat) :
    Except String (List Char) :=
  match s.priv with
  | none => Except.error "signature: private key is not configured"
  | some key =>
    match digest cm s.hash body with
    | Except.error m => Except.error m
    | Except.ok (h, sum) =>
      let em := cm.pad h sum
      if em < key.n then
        Except.ok (b64encodeStd (natToBeBytes (byteLen key.n) (em ^ key.d % key.n)))
      else
        Except.error "signature: rsa sign: message too long"

inductive VerifyError where
  | noPublicKey : VerifyError
  | emptySignature : VerifyError
  | malformedBase64 : VerifyError
  | algoError (msg : String) : VerifyError
  | mismatch : VerifyError
deriving DecidableEq, Repr

/-- `decodeSignatureBase64`: trim whitespace; empty → distinct error;
try standard base64, then raw (padding-stripped) base64; both failing →
distinct malformed error. -/
def decodeSignature (sigChars : List Char) : Except VerifyError (List Nat) :=
  let t := trimChars sigChars
  if t = [] then Except.error VerifyError.emptySignature
  else
    match b64decodeStd t with
    | some sig => Except.ok sig
    | none =>
      match b64decodeRaw t with
      | some sig => Except.ok sig
      | none => Except.error VerifyError.malformedBase64

/-- `RSASigner.Verify`: decode the base64 signature, recompute the digest,
and check the RSA relation `sig ^ e % n = em` (with the length check
`rsa.VerifyPKCS1v15` performs on the signature slice). -/
def RSASignerM.Verify (cm : CryptoModel) (s : RSASignerM) (body : List Nat)
    (sigChars : List Char) : Except VerifyError Unit :=
  match s.pub with
  | none => Except.error VerifyError.noPublicKey
  | some pub =>
    match decodeSignature sigChars with
    | Except.error e => Except.error e
    | Except.ok sig =>
      match digest cm s.hash body with
      | Except.error m => Except.error (VerifyError.algoError m)
      | Except.ok (h, sum) =>
        if sig.length = byteLen pub.n ∧ beBytesToNat sig ^ pub.e % pub.n = cm.pad h sum
        then Except.ok ()
        else Except.error VerifyError.mismatch

/-! ### Signature lemmas -/

theorem b64encodeStd_ne_nil (bs : List Nat) (h : bs ≠ []) :
    b64encodeStd bs ≠ [] := by
  match bs with
  | [] => exact absurd rfl h
  | [a] => simp [b64encodeStd]
  | [a, b] => simp [b64encodeStd]
  | a :: b :: c :: rest => simp [b64encodeStd]

theorem b64encodeStd_no_space :
    ∀ bs : List Nat, (∀ x ∈ bs, x < 256) →
      ∀ c ∈ b64encodeStd bs, isSpaceChar c = false := by
  intro bs
  induction bs using b64encodeStd.induct with
  | case1 =>
    intro _ c hc
    simp [b64encodeStd] at hc
  | case2 a =>
    intro h c hc
    have ha : a < 256 := h a (by simp)
    simp only [b64encodeStd, List.mem_cons, List.not_mem_nil, or_false] at hc
    rcases hc with hc | hc | hc | hc <;> subst hc
    · exact b64char_not_space _ (by omega)
    · exact b64char_not_space _ (by omega)
    · exact pad_not_space
    · exact pad_not_space
  | case3 a b =>
    intro h c hc
    have ha : a < 256 := h a (by simp)
    have hb : b < 256 := h b (by simp)
    simp only [b64encodeStd, List.mem_cons, List.not_mem_nil, or_false] at hc
    rcases hc with hc | hc | hc | hc <;> subst hc
    · exact b64char_not_space _ (by omega)
    · exact b64char_not_space _ (by omega)
    · exact b64char_not_space _ (by omega)
    · exact pad_not_space
  | case4 a b c rest ih =>
    intro h ch hch
    have ha : a < 256 := h a (by simp)
    have hb : b < 256 := h b (by simp)
    have hcl : c < 256 := h c (by simp)
    have hrest : ∀ x ∈ rest, x < 256 := fun x hx => h x (by simp [hx])
    simp only [b64encodeStd, List.mem_cons, List.not_mem_nil, or_false] at hch
    rcases hch with hc | hc | hc | hc | hc
    · subst hc; exact b64char_not_space _ (by omega)
    · subst hc; exact b64char_not_space _ (by omega)
    · subst hc; exact b64char_not_space _ (by omega)
    · subst hc; exact b64char_not_space _ (by omega)
    · exact ih hrest ch hc

theorem b64encodeRaw_no_space :
    ∀ bs : List Nat, (∀ x ∈ bs, x < 256) →
      ∀ c ∈ b64encodeRaw bs, isSpaceChar c = false := by
  intro bs
  induction bs using b64encodeRaw.induct with
  | case1 =>
    intro _ c hc
    simp [b64encodeRaw] at hc
  | case2 a =>
    intro h c hc
    have ha : a < 256 := h a (by simp)
    simp only [b64encodeRaw, List.mem_cons, List.not_mem_nil, or_false] at hc
    rcases hc with hc | hc <;> subst hc
    · exact b64char_not_space _ (by omega)
    · exact b64char_not_space _ (by omega)
  | case3 a b =>
    intro h c hc
    have ha : a < 256 := h a (by simp)
    have hb : b < 256 := h b (by simp)
    simp only [b64encodeRaw, List.mem_cons, List.not_mem_nil, or_false] at hc
    rcases hc with hc | hc | hc <;> subst hc
    · exact b64char_not_space _ (by omega)
    · exact b64char_not_space _ (by omega)
    · exact b64char_not_space _ (by omega)
  | case4 a b c rest ih =>
    intro h ch hch
    have ha : a < 256 := h a (by simp)
    have hb : b < 256 := h b (by simp)
    have hcl : c < 256 := h c (by simp)
    have hrest : ∀ x ∈ rest, x < 256 := fun x hx => h x (by simp [hx])
    simp only [b64encodeRaw, List.mem_cons, List.not_mem_nil, or_false] at hch
    rcases hch with hc | hc | hc | hc | hc
    · subst hc; exact b64char_not_space _ (by omega)
    · subst hc; exact b64char_not_space _ (by omega)
    · subst hc; exact b64char_not_space _ (by omega)
    · subst hc; exact b64char_not_space _ (by omega)
    · exact ih hrest ch hc

theorem trimChars_of_no_space (e : List Char)
    (he : ∀ c ∈ e, isSpaceChar c = false) : trimChars e = e := by
  have h := trimChars_sandwich [] e [] (by simp) (by simp) he
  simpa using h

theorem decodeSignature_encodeStd (bs : List Nat)
    (h256 : ∀ x ∈ bs, x < 256) (hnn : bs ≠ []) :
    decodeSignature (b64encodeStd bs) = Except.ok bs := by
  unfold decodeSignature
  have htrim : trimChars (b64encodeStd bs) = b64encodeStd bs :=
    trimChars_of_no_space _ (b64encodeStd_no_space bs h256)
  simp only [htrim]
  rw [if_neg (b64encodeStd_ne_nil bs hnn), b64decodeStd_encodeStd bs h256]

theorem decodeSignature_stripped (bs : List Nat)
    (h256 : ∀ x ∈ bs, x < 256) (hnn : bs ≠ []) :
    decodeSignature (stripTrailingEq (b64encodeStd bs)) = Except.ok bs := by
  rw [stripTrailingEq_encodeStd bs h256]
  unfold decodeSignature
  have htrim : trimChars (b64encodeRaw bs) = b64encodeRaw bs :=
    trimChars_of_no_space _ (b64encodeRaw_no_space bs h256)
  simp only [htrim]
  rw [if_neg (b64encodeRaw_ne_nil bs hnn)]
  rcases b64decodeStd_encodeRaw bs h256 with hstd | hstd
  · rw [hstd]
  · rw [hstd, b64decodeRaw_encodeRaw bs h256]

theorem decodeSignature_whitespace (bs : List Nat) (ws ws' : List Char)
    (h256 : ∀ x ∈ bs, x < 256) (hnn : bs ≠ [])
    (hws : ∀ c ∈ ws, isSpaceChar c = true)
    (hws' : ∀ c ∈ ws', isSpaceChar c = true) :
    decodeSignature (ws ++ b64encodeStd bs ++ ws') = Except.ok bs := by
  unfold decodeSignature
  have htrim := trimChars_sandwich ws (b64encodeStd bs) ws' hws hws'
    (b64encodeStd_no_space bs h256)
  simp only [htrim]
  rw [if_neg (b64encodeStd_ne_nil bs hnn), b64decodeStd_encodeStd bs h256]

/-! ## Claim theorem: sign/verify round trip (C1) -/

/-- C1 — Sign/verify round trip: for a well-formed RSA key pair
(`∀ m < n, m^(d·e) % n = m`, the defining property of matching RSA
exponents) and a recognized hash algorithm, signing a body and verifying the
base64 signature against the matching public key succeeds; and verification
of the same signature against a buffer whose digest differs (the mutated
buffer — that a single byte change alters the padded digest is the collision
resistance of the hash function, taken as a hypothesis since the hash is a
standard-library primitive abstracted in `CryptoModel`) fails with the
mismatch error. -/
theorem C1_sign_verify_roundtrip (cm : CryptoModel) (n d e : Nat)
    (algo : String) (body body' : List Nat) (h : CHash) (sum sum' : List Nat)
    (hval : ∀ m, m < n → m ^ (d * e) % n = m)
    (hn : 2 ≤ n)
    (hd : digest cm algo body = Except.ok (h, sum))
    (hd' : digest cm algo body' = Except.ok (h, sum'))
    (hpad : cm.pad h sum < n)
    (hne : cm.pad h sum' ≠ cm.pad h sum) :
    ∃ sig, RSASignerM.Sign cm ⟨some ⟨n, d⟩, some ⟨n, e⟩, algo⟩ body = Except.ok sig ∧
      RSASignerM.Verify cm ⟨some ⟨n, d⟩, some ⟨n, e⟩, algo⟩ body sig = Except.ok () ∧
      RSASignerM.Verify cm ⟨some ⟨n, d⟩, some ⟨n, e⟩, algo⟩ body' sig =
        Except.error VerifyError.mismatch := by
  have hk1 : 1 ≤ byteLen n := byteLen_pos n (by omega)
  have hsiglt : cm.pad h sum ^ d % n < n := Nat.mod_lt _ (by omega)
  have hlt256 : cm.pad h sum ^ d % n < 256 ^ byteLen n :=
    lt_trans hsiglt (lt_pow256_byteLen n)
  have hbytes := natToBeBytes_lt (byteLen n) (cm.pad h sum ^ d % n)
  have hlen := natToBeBytes_length (byteLen n) (cm.pad h sum ^ d % n)
  have hnn : natToBeBytes (byteLen n) (cm.pad h sum ^ d % n) ≠ [] := by
    intro hcontra
    rw [hcontra] at hlen
    simp at hlen
    omega
  have hdec := decodeSignature_encodeStd _ hbytes hnn
  have hbe := beBytesToNat_natToBeBytes (byteLen n) (cm.pad h sum ^ d % n) hlt256
  refine ⟨b64encodeStd (natToBeBytes (byteLen n) (cm.pad h sum ^ d % n)), ?_, ?_, ?_⟩
  · simp [RSASignerM.Sign, hd, hpad]
  · simp only [RSASignerM.Verify, hdec, hd]
    rw [if_pos]
    refine ⟨hlen, ?_⟩
    rw [hbe, ← Nat.pow_mod, ← pow_mul]
    exact hval (cm.pad h sum) hpad
  · simp only [RSASignerM.Verify, hdec, hd']
    rw [if_neg]
    intro hcontra
    rcases hcontra with ⟨_, hcontra⟩
    rw [hbe, ← Nat.pow_mod, ← pow_mul, hval (cm.pad h sum) hpad] at hcontra
    exact hne hcontra.symm

/-- A concrete instantiation of the abstracted standard-library crypto
primitives, used to evaluate the signature theorems at concrete inputs:
the toy RSA modulus is 33 = 3·11 with exponents 7·3 = 21 ≡ 1 (mod λ(33)=10),
the hash is the identity on byte lists, and the padded representative is the
first byte reduced below the modulus. -/
def cmW : CryptoModel :=
  ⟨fun bs => bs, fun bs => bs, fun _ s => s.headD 0 % 33⟩

/-- Witness for C1 at concrete inputs: toy RSA key (n = 33, d = 7, e = 3),
SHA-256 digest selection, body [1] and mutated body [2]. -/
theorem C1_witness :
    (∀ m, m < 33 → m ^ (7 * 3) % 33 = m) ∧
    (2 : Nat) ≤ 33 ∧
    cmW.pad CHash.SHA256 [1] < 33 ∧
    cmW.pad CHash.SHA256 [2] ≠ cmW.pad CHash.SHA256 [1] ∧
    (∃ sig, RSASignerM.Sign cmW ⟨some ⟨33, 7⟩, some ⟨33, 3⟩, "SHA-256"⟩ [1] =
        Except.ok sig ∧
      RSASignerM.Verify cmW ⟨some ⟨33, 7⟩, some ⟨33, 3⟩, "SHA-256"⟩ [1] sig =
        Except.ok () ∧
      RSASignerM.Verify cmW ⟨some ⟨33, 7⟩, some ⟨33, 3⟩, "SHA-256"⟩ [2] sig =
        Except.error VerifyError.mismatch) :=
  ⟨by decide, by omega, by decide, by decide,
    C1_sign_verify_roundtrip cmW 33 7 3 "SHA-256" [1] [2] CHash.SHA256 [1] [2]
      (by decide) (by omega) rfl rfl (by decide) (by decide)⟩

/-! ## Claim theorem: verification input tolerance (C7) -/

instance {ε α : Type} [DecidableEq ε] [DecidableEq α] :
    DecidableEq (Except ε α) := fun a b =>
  match a, b with
  | Except.error x, Except.error y =>
    if h : x = y then isTrue (by rw [h])
    else isFalse (fun hc => h (by cases hc; rfl))
  | Except.error _, Except.ok _ => isFalse (fun hc => Except.noConfusion hc)
  | Except.ok _, Except.error _ => isFalse (fun hc => Except.noConfusion hc)
  | Except.ok x, Except.ok y =>
    if h : x = y then isTrue (by rw [h])
    else isFalse (fun hc => h (by cases hc; rfl))

/-- C7 — Verification input tolerance: a signature accepted in standard
padded base64 still verifies with surrounding whitespace added, and with the
trailing `=` padding stripped; an input that trims to empty yields the
distinct empty-signature error; an input on which both decoders fail yields
the distinct malformed-base64 error; and an input that decodes fine can only
end in success, the mismatch error, or an algorithm-configuration error —
never the empty/malformed errors, which are pairwise distinct from
mismatch. -/
theorem C7_verification_tolerance (cm : CryptoModel) (s : RSASignerM)
    (body bs : List Nat) (ws ws' : List Char)
    (h256 : ∀ x ∈ bs, x < 256)
    (hws : ∀ c ∈ ws, isSpaceChar c = true)
    (hws' : ∀ c ∈ ws', isSpaceChar c = true)
    (hacc : RSASignerM.Verify cm s body (b64encodeStd bs) = Except.ok ()) :
    RSASignerM.Verify cm s body (ws ++ b64encodeStd bs ++ ws') = Except.ok () ∧
    RSASignerM.Verify cm s body (stripTrailingEq (b64encodeStd bs)) = Except.ok () ∧
    (∀ t, trimChars t = [] →
      decodeSignature t = Except.error VerifyError.emptySignature) ∧
    (∀ t, trimChars t ≠ [] → b64decodeStd (trimChars t) = none →
      b64decodeRaw (trimChars t) = none →
      decodeSignature t = Except.error VerifyError.malformedBase64) ∧
    (∀ t sig, decodeSignature t = Except.ok sig →
      RSASignerM.Verify cm s body t = Except.ok () ∨
      RSASignerM.Verify cm s body t = Except.error VerifyError.mismatch ∨
      ∃ m, RSASignerM.Verify cm s body t = Except.error (VerifyError.algoError m)) ∧
    (VerifyError.emptySignature ≠ VerifyError.malformedBase64 ∧
      VerifyError.mismatch ≠ VerifyError.emptySignature ∧
      VerifyError.mismatch ≠ VerifyError.malformedBase64) := by
  cases hp : s.pub with
  | none => simp [RSASignerM.Verify, hp] at hacc
  | some pub =>
  by_cases hbs : bs = []
  · subst hbs
    have hdecnil : decodeSignature (b64encodeStd []) =
        Except.error VerifyError.emptySignature := by decide
    simp [RSASignerM.Verify, hp, hdecnil] at hacc
  · have hdec := decodeSignature_encodeStd bs h256 hbs
    rcases hdig : digest cm s.hash body with m | dh
    · exfalso
      simp [RSASignerM.Verify, hp, hdec, hdig] at hacc
    · rcases dh with ⟨h, sum⟩
      simp only [RSASignerM.Verify, hp, hdec, hdig] at hacc
      have hcond : bs.length = byteLen pub.n ∧
          beBytesToNat bs ^ pub.e % pub.n = cm.pad h sum := by
        by_contra hcontra
        rw [if_neg hcontra] at hacc
        simp at hacc
      refine ⟨?_, ?_, ?_, ?_, ?_, by decide, by decide, by decide⟩
      · have hd2 := decodeSignature_whitespace bs ws ws' h256 hbs hws hws'
        rw [List.append_assoc] at hd2
        simp [RSASignerM.Verify, hp, hd2, hdig, hcond]
      · have hd3 := decodeSignature_stripped bs h256 hbs
        simp [RSASignerM.Verify, hp, hd3, hdig, hcond]
      · intro t ht
        simp [decodeSignature, ht]
      · intro t ht h1 h2
        simp [decodeSignature, ht, h1, h2]
      · intro t sig ht
        rcases hdig2 : digest cm s.hash body with m2 | dh2
        · exact Or.inr (Or.inr ⟨m2, by simp [RSASignerM.Verify, hp, ht, hdig2]⟩)
        · rcases dh2 with ⟨h2, sum2⟩
          by_cases hcond2 : sig.length = byteLen pub.n ∧
              beBytesToNat sig ^ pub.e % pub.n = cm.pad h2 sum2
          · exact Or.inl (by simp [RSASignerM.Verify, hp, ht, hdig2, hcond2])
          · refine Or.inr (Or.inl ?_)
            simp only [RSASignerM.Verify, hp, ht, hdig2]
            rw [if_neg hcond2]

/-- Witness for C7 at concrete inputs: the toy signer accepts the padded
standard encoding of its signature over body [1]; with a leading space and a
trailing newline added, and with the `==` padding stripped, it still
verifies. -/
theorem C7_witness :
    (∀ x ∈ [(1 : Nat)], x < 256) ∧
    RSASignerM.Verify cmW ⟨some ⟨33, 7⟩, some ⟨33, 3⟩, "SHA-256"⟩ [1]
      (b64encodeStd [1]) = Except.ok () ∧
    RSASignerM.Verify cmW ⟨some ⟨33, 7⟩, some ⟨33, 3⟩, "SHA-256"⟩ [1]
      ([' '] ++ b64encodeStd [1] ++ ['\n']) = Except.ok () ∧
    RSASignerM.Verify cmW ⟨some ⟨33, 7⟩, some ⟨33, 3⟩, "SHA-256"⟩ [1]
      (stripTrailingEq (b64encodeStd [1])) = Except.ok () := by
  have hacc : RSASignerM.Verify cmW ⟨some ⟨33, 7⟩, some ⟨33, 3⟩, "SHA-256"⟩ [1]
      (b64encodeStd [1]) = Except.ok () := by decide
  have h := C7_verification_tolerance cmW ⟨some ⟨33, 7⟩, some ⟨33, 3⟩, "SHA-256"⟩
    [1] [1] [' '] ['\n'] (by decide) (by decide) (by decide) hacc
  exact ⟨by decide, hacc, h.1, h.2.1⟩

/-! ## Claim theorem: hash algorithm selection (C8) -/

/-- C8 — Hash algorithm selection: `digest` maps "SHA-256", "", "sha256",
"SHA256" to SHA-256; "SHA-1", "sha1", "SHA1" to SHA-1; every other name
yields the unsupported-algorithm error, which makes `Sign` (with a private
key) and `Verify` (with a public key and a decodable signature) fail; a
plain error of this kind is not retryable, so the retry loop returns it
immediately after one attempt. -/
theorem C8_hash_algorithm_selection :
    (∀ (cm : CryptoModel) (data : List Nat),
      digest cm "SHA-256" data = Except.ok (CHash.SHA256, cm.sha256 data) ∧
      digest cm "" data = Except.ok (CHash.SHA256, cm.sha256 data) ∧
      digest cm "sha256" data = Except.ok (CHash.SHA256, cm.sha256 data) ∧
      digest cm "SHA256" data = Except.ok (CHash.SHA256, cm.sha256 data) ∧
      digest cm "SHA-1" data = Except.ok (CHash.SHA1, cm.sha1 data) ∧
      digest cm "sha1" data = Except.ok (CHash.SHA1, cm.sha1 data) ∧
      digest cm "SHA1" data = Except.ok (CHash.SHA1, cm.sha1 data)) ∧
    (∀ (cm : CryptoModel) (algo : String) (data : List Nat),
      algo ∉ ["SHA-256", "", "sha256", "SHA256", "SHA-1", "sha1", "SHA1"] →
      digest cm algo data =
        Except.error ("unsupported signature hash algorithm: \x22" ++ algo ++ "\x22")) ∧
    (∀ (cm : CryptoModel) (algo : String) (body : List Nat)
        (key : RSAPrivateKey) (p : Option RSAPublicKey) (msg : String),
      digest cm algo body = Except.error msg →
      RSASignerM.Sign cm ⟨some key, p, algo⟩ body = Except.error msg) ∧
    (∀ (cm : CryptoModel) (algo : String) (body sig : List Nat)
        (pr : Option RSAPrivateKey) (pub : RSAPublicKey) (t : List Char) (msg : String),
      digest cm algo body = Except.error msg →
      decodeSignature t = Except.ok sig →
      RSASignerM.Verify cm ⟨pr, some pub, algo⟩ body t =
        Except.error (VerifyError.algoError msg)) ∧
    (∀ msg, isRetryable (GoError.simple msg) = false) ∧
    (∀ (N W : Nat) (outcomes cancel : Nat → Option GoError) (msg : String),
      1 ≤ N → outcomes 1 = some (GoError.simple msg) →
      DoJSON N outcomes cancel W = ⟨some (GoError.simple msg), [], 1⟩) := by
  refine ⟨?_, ?_, ?_, ?_, ?_, ?_⟩
  · intro cm data
    refine ⟨?_, ?_, ?_, ?_, ?_, ?_, ?_⟩ <;> simp [digest]
  · intro cm algo data h
    simp only [List.mem_cons, List.not_mem_nil, or_false, not_or] at h
    obtain ⟨h1, h2, h3, h4, h5, h6, h7⟩ := h
    simp [digest, h1, h2, h3, h4, h5, h6, h7]
  · intro cm algo body key p msg hd
    simp [RSASignerM.Sign, hd]
  · intro cm algo body sig pr pub t msg hd ht
    simp [RSASignerM.Verify, hd, ht]
  · intro msg
    rfl
  · intro N W outcomes cancel msg hN hout
    have h := DoJSON_stops_at_nonretryable N W 1 outcomes cancel
      (fun _ => GoError.simple msg) (by omega) hN
      (fun k hk1 hk2 => by
        have hk : k = 1 := by omega
        subst hk; exact hout)
      (fun k hk1 hk2 => by omega) (fun k hk1 hk2 => by omega) rfl
    simpa using h

/-- Witness for C8 at concrete inputs: the name "MD5" is rejected with the
unsupported-algorithm error, and a DoJSON attempt failing with that plain
error is returned after exactly one attempt. -/
theorem C8_witness :
    ("MD5" : String) ∉ ["SHA-256", "", "sha256", "SHA256", "SHA-1", "sha1", "SHA1"] ∧
    digest cmW "MD5" [1] =
      Except.error ("unsupported signature hash algorithm: \x22MD5\x22") ∧
    DoJSON 3 (fun _ => some (GoError.simple "unsupported signature hash algorithm")) 
      (fun _ => none) 5 =
      ⟨some (GoError.simple "unsupported signature hash algorithm"), [], 1⟩ := by
  refine ⟨by decide, ?_, ?_⟩
  · exact C8_hash_algorithm_selection.2.1 cmW "MD5" [1] (by decide)
  · exact C8_hash_algorithm_selection.2.2.2.2.2 3 5 _ _
      "unsupported signature hash algorithm" (by omega) rfl

/-! ## Canonical JSON encoder (`internal/jsonutil.Marshal`)

`jsonutil.Marshal` runs `json.Encoder` with `SetEscapeHTML(false)` (so `<`,
`>`, `&` stay raw), then strips the single trailing newline the encoder
always appends, and returns a fresh copy.  JSON values are modelled by a
mutual inductive (objects keep the encoder's field order); the string
escaper mirrors Go's non-HTML `encodeState`: `"`, `\`, and control
characters below 0x20 are escaped (`\n`, `\r`, `\t` short forms, `\u00XX`
otherwise), everything else is emitted raw. -/

mutual
inductive JSONValue where
  | null : JSONValue
  | bool (b : Bool) : JSONValue
  | num (n : Int) : JSONValue
  | str (s : List Char) : JSONValue
  | arr (xs : JSONList) : JSONValue
  | obj (fs : JSONFields) : JSONValue
inductive JSONList where
  | nil : JSONList
  | cons (v : JSONValue) (rest : JSONList) : JSONList
inductive JSONFields where
  | nil : JSONFields
  | cons (key : List Char) (v : JSONValue) (rest : JSONFields) : JSONFields
end

def digitChar (d : Nat) : Char := Char.ofNat (48 + d)

def natCharsAux : Nat → Nat → List Char
  | 0, _ => []
  | fuel + 1, n =>
    if n < 10 then [digitChar n]
    else natCharsAux fuel (n / 10) ++ [digitChar (n % 10)]

def natChars (n : Nat) : List Char := natCharsAux (n + 1) n

def intChars : Int → List Char
  | Int.ofNat n => natChars n
  | Int.negSucc m => '-' :: natChars (m + 1)

def hexDigit (d : Nat) : Char :=
  if d < 10 then Char.ofNat (48 + d) else Char.ofNat (87 + d)

/-- Go `encodeState` string escaping with HTML escaping disabled. -/
def escapeChar (c : Char) : List Char :=
  if c = '"' then ['\\', '"']
  else if c = '\\' then ['\\', '\\']
  else if c = '\n' then ['\\', 'n']
  else if c = '\x0d' then ['\\', 'r']
  else if c = '\t' then ['\\', 't']
  else if c.toNat < 32 then
    ['\\', 'u', '0', '0', hexDigit (c.toNat / 16), hexDigit (c.toNat % 16)]
  else [c]

def escString : List Char → List Char
  | [] => []
  | c :: rest => escapeChar c ++ escString rest

mutual
def serialize : JSONValue → List Char
  | JSONValue.null => ['n', 'u', 'l', 'l']
  | JSONValue.bool true => ['t', 'r', 'u', 'e']
  | JSONValue.bool false => ['f', 'a', 'l', 's', 'e']
  | JSONValue.num n => intChars n
  | JSONValue.str s => '"' :: escString s ++ ['"']
  | JSONValue.arr xs => '[' :: serializeList xs ++ [']']
  | JSONValue.obj fs => '\x7b' :: serializeFields fs ++ ['\x7d']
def serializeList : JSONList → List Char
  | JSONList.nil => []
  | JSONList.cons v JSONList.nil => serialize v
  | JSONList.cons v rest => serialize v ++ ',' :: serializeList rest
def serializeFields : JSONFields → List Char
  | JSONFields.nil => []
  | JSONFields.cons k v JSONFields.nil =>
    '"' :: escString k ++ ['"', ':'] ++ serialize v
  | JSONFields.cons k v rest =>
    '"' :: escString k ++ ['"', ':'] ++ serialize v ++ ',' :: serializeFields rest
end

/-- `json.Encoder.Encode` output: the serialized value plus the trailing
newline the encoder always appends. -/
def goEncoderEncode (v : JSONValue) : List Char := serialize v ++ ['\n']

/-- `jsonutil.Marshal`: strip exactly one trailing newline if present. -/
def Marshal (v : JSONValue) : List Char :=
  let b := goEncoderEncode v
  if b ≠ [] ∧ b.getLast? = some '\n' then b.dropLast else b

/-! ### Encoder lemmas -/

theorem natChars_ne_nil (n : Nat) : natChars n ≠ [] := by
  unfold natChars natCharsAux
  by_cases h : n < 10 <;> simp [h]

theorem natChars_getLast (n : Nat) :
    (natChars n).getLast? = some (digitChar (n % 10)) := by
  unfold natChars natCharsAux
  by_cases h : n < 10
  · have hmod : n % 10 = n := Nat.mod_eq_of_lt h
    simp [h, hmod]
  · simp only [h, if_false]
    rw [List.getLast?_concat]

theorem digitChar_ne_newline : ∀ d, d < 10 → digitChar d ≠ '\n' := by decide

theorem serialize_getLast_ne_newline (v : JSONValue) :
    (serialize v).getLast? ≠ some '\n' := by
  cases v with
  | null => simp [serialize]
  | bool b => cases b <;> simp [serialize]
  | num n =>
    cases n with
    | ofNat m =>
      simp only [serialize, intChars, natChars_getLast]
      intro hc
      exact digitChar_ne_newline (m % 10) (Nat.mod_lt _ (by omega)) (by injection hc)
    | negSucc m =>
      simp only [serialize, intChars]
      rw [List.getLast?_cons, natChars_getLast]
      intro hc
      simp at hc
      exact digitChar_ne_newline ((m + 1) % 10) (Nat.mod_lt _ (by omega)) hc
  | str s =>
    show (('"' :: escString s) ++ ['"']).getLast? ≠ some '\n'
    rw [List.getLast?_concat]
    decide
  | arr xs =>
    show (('[' :: serializeList xs) ++ [']']).getLast? ≠ some '\n'
    rw [List.getLast?_concat]
    decide
  | obj fs =>
    show (('\x7b' :: serializeFields fs) ++ ['\x7d']).getLast? ≠ some '\n'
    rw [List.getLast?_concat]
    decide

theorem Marshal_eq_serialize (v : JSONValue) : Marshal v = serialize v := by
  unfold Marshal goEncoderEncode
  have h1 : serialize v ++ ['\n'] ≠ [] := by simp
  have h2 : (serialize v ++ ['\n']).getLast? = some '\n' := by
    rw [List.getLast?_concat]
  simp [h1, h2, List.dropLast_concat]

/-! ## Claim theorem: canonical encoding form (C5) -/

/-- C5 — Canonical encoding form: encoding is deterministic (a pure
function, so repeated encodes agree definitionally); the output is the
serialization with the encoder's single trailing newline stripped (exactly
one terminator removed) and hence never ends with a line terminator; and
`<`, `>`, `&` in source strings pass through the escaper raw. -/
theorem C5_canonical_encoding (v : JSONValue) (s : List Char) :
    Marshal v = Marshal v ∧
    Marshal v = serialize v ∧
    (Marshal v).getLast? ≠ some '\n' ∧
    escapeChar '<' = ['<'] ∧
    escapeChar '>' = ['>'] ∧
    escapeChar '&' = ['&'] ∧
    Marshal (JSONValue.str s) = '"' :: escString s ++ ['"'] ∧
    escString ('<' :: s) = '<' :: escString s ∧
    escString ('>' :: s) = '>' :: escString s ∧
    escString ('&' :: s) = '&' :: escString s := by
  refine ⟨rfl, Marshal_eq_serialize v, ?_, by decide, by decide, by decide,
    ?_, ?_, ?_, ?_⟩
  · rw [Marshal_eq_serialize v]
    exact serialize_getLast_ne_newline v
  · rw [Marshal_eq_serialize (JSONValue.str s)]
    rfl
  · show escapeChar '<' ++ escString s = '<' :: escString s
    rw [show escapeChar '<' = ['<'] from by decide]
    rfl
  · show escapeChar '>' ++ escString s = '>' :: escString s
    rw [show escapeChar '>' = ['>'] from by decide]
    rfl
  · show escapeChar '&' ++ escString s = '&' :: escString s
    rw [show escapeChar '&' = ['&'] from by decide]
    rfl

/-! ## Single-attempt transport (`doOnce`, client.go)

`doOnce` is modelled as a pure function of: the body argument, the optional
signer, the default headers, the optional JSON output decoder (`out != nil`),
a dispatch oracle standing for `httpClient.Do` plus `io.ReadAll`, the
generated request id, and the recorder hook outcomes (which the Go code logs
and swallows — the `_hookFail` parameter deliberately cannot influence
anything).  Events mirror `recordRequest` / `recordResponse` /
`recordError`. -/

inductive BodyArg where
  | noBody : BodyArg
  | bytes (b : List Nat) : BodyArg
  | str (s : List Char) : BodyArg
  | json (v : JSONValue) : BodyArg
  | badValue : BodyArg

def charsToBytes (s : List Char) : List Nat := s.map Char.toNat

/-- `prepareBody`: nil stays nil, byte slices and strings pass through
(copied), other values go through `jsonutil.Marshal`; `badValue` stands for
a Go value `json.Marshal` rejects (channel, func, cyclic), whose error is
wrapped as `marshal json body: …`. -/
def prepareBody : BodyArg → Except GoError (Option (List Nat))
  | BodyArg.noBody => Except.ok none
  | BodyArg.bytes b => Except.ok (some b)
  | BodyArg.str s => Except.ok (some (charsToBytes s))
  | BodyArg.json v => Except.ok (some (charsToBytes (Marshal v)))
  | BodyArg.badValue =>
    Except.error (GoError.wrapped "marshal json body"
      (GoError.simple "json: unsupported type"))

def charLower (c : Char) : Char :=
  if 'A' ≤ c ∧ c ≤ 'Z' then Char.ofNat (c.toNat + 32) else c

/-- `net/http` header keys are case-insensitive (canonicalized by
`textproto.CanonicalMIMEHeaderKey`); equality up to ASCII case models
that. -/
def keyMatches (a b : String) : Bool :=
  a.toList.map charLower == b.toList.map charLower

/-- `http.Header.Set`: replaces any existing value for the (canonicalized)
key. -/
def setHeader (hs : List (String × String)) (k v : String) :
    List (String × String) :=
  hs.filter (fun kv => !(keyMatches kv.1 k)) ++ [(k, v)]

def getHeader (hs : List (String × String)) (k : String) : Option String :=
  (hs.find? (fun kv => keyMatches kv.1 k)).map Prod.snd

/-- Header assembly order in `doOnce`: `Accept` always; `Content-Type` if a
body is present; then the caller's default headers, skipping empty
keys/values. -/
def buildHeaders (bodyBytes : Option (List Nat))
    (defaultHeaders : List (String × String)) : List (String × String) :=
  let h0 := setHeader [] "Accept" "application/json"
  let h1 := if bodyBytes.isSome then setHeader h0 "Content-Type" "application/json"
            else h0
  defaultHeaders.foldl
    (fun hs kv => if kv.1 = "" || kv.2 = "" then hs else setHeader hs kv.1 kv.2) h1

structure RequestModel where
  headers : List (String × String)
  body : Option (List Nat)
deriving DecidableEq, Repr

/-- Everything in `doOnce` before `httpClient.Do`: prepare the body, build
the headers, and (if a signer is configured) compute `x-sign` over the body
bytes — or an explicit empty buffer when there is no body — applying it
last. -/
def prepareRequest (cm : CryptoModel) (signer : Option RSASignerM)
    (defaultHeaders : List (String × String)) (body : BodyArg) :
    Except GoError RequestModel :=
  match prepareBody body with
  | Except.error e => Except.error e
  | Except.ok bodyBytes =>
    let sigInput := bodyBytes.getD []
    let hs := buildHeaders bodyBytes defaultHeaders
    match signer with
    | none => Except.ok ⟨hs, bodyBytes⟩
    | some s =>
      match RSASignerM.Sign cm s sigInput with
      | Except.error msg => Except.error (GoError.simple msg)
      | Except.ok sig => Except.ok ⟨setHeader hs "x-sign" (String.mk sig), bodyBytes⟩

inductive Event where
  | reqE (id : Nat) (body : List Nat) : Event
  | respE (id : Nat) (body : List Nat) : Event
  | errE (id : Nat) : Event
deriving DecidableEq, Repr

inductive DispatchResult where
  | transportErr (e : GoError) : DispatchResult
  | resp (status : Nat) (readResult : Except GoError (List Nat)) : DispatchResult

structure DoOnceResult where
  err : Option GoError
  raw : List Nat
  status : Option Nat
  req : Option RequestModel
  events : List Event
deriving DecidableEq, Repr

/-- One attempt of `doOnce`.  Mirrors client.go lines 109–188: every failure
records an error event; a fully read response body records a response event
(before status classification); the request event fires once the request is
built, with the exact signing input. -/
def doOnce (cm : CryptoModel) (signer : Option RSASignerM)
    (defaultHeaders : List (String × String)) (body : BodyArg)
    (out : Option (List Nat → Option GoError)) (dispatch : DispatchResult)
    (id : Nat) (_hookFail : Event → Bool) : DoOnceResult :=
  match prepareRequest cm signer defaultHeaders body with
  | Except.error e => ⟨some e, [], none, none, [Event.errE id]⟩
  | Except.ok req =>
    let sigInput := req.body.getD []
    match dispatch with
    | DispatchResult.transportErr e =>
      ⟨some e, [], none, some req, [Event.reqE id sigInput, Event.errE id]⟩
    | DispatchResult.resp st readRes =>
      match readRes with
      | Except.error e =>
        ⟨some e, [], some st, some req, [Event.reqE id sigInput, Event.errE id]⟩
      | Except.ok raw =>
        if st < 200 ∨ 300 ≤ st then
          ⟨some (GoError.httpStatus st raw), raw, some st, some req,
            [Event.reqE id sigInput, Event.respE id raw, Event.errE id]⟩
        else
          match out with
          | none =>
            ⟨none, raw, some st, some req,
              [Event.reqE id sigInput, Event.respE id raw]⟩
          | some dec =>
            match dec raw with
            | none =>
              ⟨none, raw, some st, some req,
                [Event.reqE id sigInput, Event.respE id raw]⟩
            | some e =>
              ⟨some (GoError.wrapped "decode json response" e), raw, some st,
                some req,
                [Event.reqE id sigInput, Event.respE id raw, Event.errE id]⟩

def isReqE : Event → Bool
  | Event.reqE _ _ => true
  | _ => false

def isRespE : Event → Bool
  | Event.respE _ _ => true
  | _ => false

def isErrE : Event → Bool
  | Event.errE _ => true
  | _ => false

def eventID : Event → Nat
  | Event.reqE i _ => i
  | Event.respE i _ => i
  | Event.errE i => i

def countE (p : Event → Bool) (evs : List Event) : Nat := (evs.filter p).length

/-! ### Header lemmas -/

theorem keyMatches_iff (a b : String) :
    keyMatches a b = true ↔ a.toList.map charLower = b.toList.map charLower := by
  simp [keyMatches]

theorem getHeader_setHeader_same (hs : List (String × String)) (k v k' : String)
    (hm : keyMatches k k' = true) :
    getHeader (setHeader hs k v) k' = some v := by
  induction hs with
  | nil =>
    simp [getHeader, setHeader, List.find?, hm]
  | cons kv hs ih =>
    by_cases h1 : keyMatches kv.1 k = true
    · have hstep : setHeader (kv :: hs) k v = setHeader hs k v := by
        simp [setHeader, List.filter_cons, h1]
      rw [hstep]
      exact ih
    · have h1f : keyMatches kv.1 k = false := by
        cases hkv : keyMatches kv.1 k
        · rfl
        · exact absurd hkv h1
      have h2 : keyMatches kv.1 k' = false := by
        cases hkv : keyMatches kv.1 k'
        · rfl
        · exfalso
          apply h1
          rw [keyMatches_iff] at hkv hm ⊢
          rw [hkv, ← hm]
      have hstep : setHeader (kv :: hs) k v = kv :: setHeader hs k v := by
        simp [setHeader, List.filter_cons, h1f]
      rw [hstep]
      simp only [getHeader, List.find?, h2] at ih ⊢
      exact ih

theorem getHeader_setHeader_other (hs : List (String × String)) (k v k' : String)
    (hm : keyMatches k k' = false) :
    getHeader (setHeader hs k v) k' = getHeader hs k' := by
  induction hs with
  | nil =>
    simp [getHeader, setHeader, List.find?, hm]
  | cons kv hs ih =>
    by_cases h1 : keyMatches kv.1 k = true
    · have h2 : keyMatches kv.1 k' = false := by
        cases hkv : keyMatches kv.1 k'
        · rfl
        · exfalso
          rw [keyMatches_iff] at hkv h1
          have hkk : keyMatches k k' = true := by
            rw [keyMatches_iff, ← h1, hkv]
          rw [hkk] at hm
          exact Bool.noConfusion hm
      have hstep : setHeader (kv :: hs) k v = setHeader hs k v := by
        simp [setHeader, List.filter_cons, h1]
      rw [hstep, ih]
      simp only [getHeader, List.find?, h2]
    · have h1f : keyMatches kv.1 k = false := by
        cases hkv : keyMatches kv.1 k
        · rfl
        · exact absurd hkv h1
      have hstep : setHeader (kv :: hs) k v = kv :: setHeader hs k v := by
        simp [setHeader, List.filter_cons, h1f]
      rw [hstep]
      by_cases h2 : keyMatches kv.1 k' = true
      · simp only [getHeader, List.find?, h2]
      · have h2f : keyMatches kv.1 k' = false := by
          cases hkv : keyMatches kv.1 k'
          · rfl
          · exact absurd hkv h2
        simp only [getHeader, List.find?, h2f] at ih ⊢
        exact ih

theorem getHeader_foldl_default (defs : List (String × String)) (k' : String)
    (hd : ∀ kv ∈ defs, keyMatches kv.1 k' = false) :
    ∀ h0, getHeader
      (defs.foldl
        (fun hs kv => if kv.1 = "" || kv.2 = "" then hs else setHeader hs kv.1 kv.2)
        h0) k' = getHeader h0 k' := by
  induction defs with
  | nil => intro h0; rfl
  | cons kv defs ih =>
    intro h0
    have hkv : keyMatches kv.1 k' = false := hd kv (by simp)
    have hrest : ∀ kv ∈ defs, keyMatches kv.1 k' = false :=
      fun x hx => hd x (by simp [hx])
    simp only [List.foldl_cons]
    by_cases hskip : kv.1 = "" || kv.2 = ""
    · rw [if_pos hskip]
      exact ih hrest h0
    · rw [if_neg hskip, ih hrest (setHeader h0 kv.1 kv.2),
        getHeader_setHeader_other h0 kv.1 kv.2 k' hkv]

theorem doOnce_req (cm : CryptoModel) (signer : Option RSASignerM)
    (defHs : List (String × String)) (body : BodyArg)
    (out : Option (List Nat → Option GoError)) (dispatch : DispatchResult)
    (id : Nat) (hk : Event → Bool) :
    (doOnce cm signer defHs body out dispatch id hk).req =
      (prepareRequest cm signer defHs body).toOption := by
  unfold doOnce
  cases hp : prepareRequest cm signer defHs body with
  | error e => rfl
  | ok rq =>
    cases dispatch with
    | transportErr e => rfl
    | resp st rr =>
      cases rr with
      | error e => rfl
      | ok raw =>
        by_cases hst : st < 200 ∨ 300 ≤ st
        · simp only [if_pos hst]
          rfl
        · simp only [if_neg hst]
          cases out with
          | none => rfl
          | some dec =>
            rcases hdec : dec raw with _ | e <;> simp [hdec, Except.toOption]

theorem prepareRequest_body_err (cm : CryptoModel) (signer : Option RSASignerM)
    (defHs : List (String × String)) (body : BodyArg) (e : GoError)
    (hbb : prepareBody body = Except.error e) :
    prepareRequest cm signer defHs body = Except.error e := by
  unfold prepareRequest
  rw [hbb]

theorem prepareRequest_no_signer (cm : CryptoModel)
    (defHs : List (String × String)) (body : BodyArg) (bb : Option (List Nat))
    (hbb : prepareBody body = Except.ok bb) :
    prepareRequest cm none defHs body =
      Except.ok ⟨buildHeaders bb defHs, bb⟩ := by
  unfold prepareRequest
  rw [hbb]

theorem prepareRequest_sign_err (cm : CryptoModel) (s : RSASignerM)
    (defHs : List (String × String)) (body : BodyArg) (bb : Option (List Nat))
    (msg : String)
    (hbb : prepareBody body = Except.ok bb)
    (hsig : RSASignerM.Sign cm s (bb.getD []) = Except.error msg) :
    prepareRequest cm (some s) defHs body =
      Except.error (GoError.simple msg) := by
  unfold prepareRequest
  rw [hbb]
  simp only [hsig]

theorem prepareRequest_sign_ok (cm : CryptoModel) (s : RSASignerM)
    (defHs : List (String × String)) (body : BodyArg) (bb : Option (List Nat))
    (sig : List Char)
    (hbb : prepareBody body = Except.ok bb)
    (hsig : RSASignerM.Sign cm s (bb.getD []) = Except.ok sig) :
    prepareRequest cm (some s) defHs body =
      Except.ok ⟨setHeader (buildHeaders bb defHs) "x-sign" (String.mk sig), bb⟩ := by
  unfold prepareRequest
  rw [hbb]
  simp only [hsig]

theorem getHeader_buildHeaders_xsign (bb : Option (List Nat))
    (defHs : List (String × String))
    (hdefs : ∀ kv ∈ defHs, keyMatches kv.1 "x-sign" = false) :
    getHeader (buildHeaders bb defHs) "x-sign" = none := by
  simp only [buildHeaders]
  rw [getHeader_foldl_default defHs "x-sign" hdefs]
  cases bb with
  | none => decide
  | some b =>
    show getHeader (setHeader (setHeader [] "Accept" "application/json")
      "Content-Type" "application/json") "x-sign" = none
    decide

/-! ## Claim theorems: signature header presence (C6) -/

/-- Counterexample to C6 as stated: with no signer configured but a default
header named `x-sign`, `doOnce` still sends an `x-sign` header (default
headers are applied unconditionally), contradicting "for every request sent
without a signer configured, no x-sign header is set". -/
theorem C6_counterexample :
    (doOnce cmW none [("x-sign", "forged")] BodyArg.noBody none
        (DispatchResult.resp 200 (Except.ok [])) 0 (fun _ => false)).req.map
      (fun rq => getHeader rq.headers "x-sign") = some (some "forged") ∧
    (doOnce cmW none [("x-sign", "forged")] BodyArg.noBody none
        (DispatchResult.resp 200 (Except.ok [])) 0 (fun _ => false)).err = none := by
  constructor
  · decide
  · decide

/-- C6 (amended) — Signature header presence: for every request sent by
`doOnce` with a signer configured, the `x-sign` header is set to the
signature computed over exactly the body bytes placed in the request (an
empty buffer when there is no body — signing is never skipped); without a
signer, `doOnce` itself sets no `x-sign` header, so none is present unless
the caller supplies one among the default headers. -/
theorem C6_signature_header (cm : CryptoModel) (signer : Option RSASignerM)
    (defHs : List (String × String)) (body : BodyArg)
    (out : Option (List Nat → Option GoError)) (dispatch : DispatchResult)
    (id : Nat) (hk : Event → Bool) :
    (∀ s rq bb, signer = some s →
      (doOnce cm signer defHs body out dispatch id hk).req = some rq →
      prepareBody body = Except.ok bb →
      rq.body = bb ∧
      ∃ sigChars, RSASignerM.Sign cm s (bb.getD []) = Except.ok sigChars ∧
        getHeader rq.headers "x-sign" = some (String.mk sigChars)) ∧
    (signer = none →
      (∀ kv ∈ defHs, keyMatches kv.1 "x-sign" = false) →
      ∀ rq, (doOnce cm signer defHs body out dispatch id hk).req = some rq →
        getHeader rq.headers "x-sign" = none) := by
  constructor
  · intro s rq bb hs hreq hbb
    subst hs
    rw [doOnce_req] at hreq
    rcases hsig : RSASignerM.Sign cm s (bb.getD []) with msg | sig
    · rw [prepareRequest_sign_err cm s defHs body bb msg hbb hsig] at hreq
      simp [Except.toOption] at hreq
    · rw [prepareRequest_sign_ok cm s defHs body bb sig hbb hsig] at hreq
      simp only [Except.toOption] at hreq
      injection hreq with hreq
      subst hreq
      refine ⟨rfl, sig, rfl, ?_⟩
      exact getHeader_setHeader_same _ "x-sign" _ "x-sign" (by decide)
  · intro hnone hdefs rq hreq
    subst hnone
    rw [doOnce_req] at hreq
    rcases hbb : prepareBody body with e | bb
    · rw [prepareRequest_body_err cm none defHs body e hbb] at hreq
      simp [Except.toOption] at hreq
    · rw [prepareRequest_no_signer cm defHs body bb hbb] at hreq
      simp only [Except.toOption] at hreq
      injection hreq with hreq
      subst hreq
      exact getHeader_buildHeaders_xsign bb defHs hdefs

/-- Witness for C6 at concrete inputs: a toy signer over no body signs the
empty buffer (signature "AA==") and the header is present with exactly that
value. -/
theorem C6_witness :
    ∃ rq, (doOnce cmW (some ⟨some ⟨33, 7⟩, some ⟨33, 3⟩, "SHA-256"⟩) []
        BodyArg.noBody none (DispatchResult.resp 200 (Except.ok [])) 0
        (fun _ => false)).req = some rq ∧
      rq.body = none ∧
      ∃ sigChars, RSASignerM.Sign cmW ⟨some ⟨33, 7⟩, some ⟨33, 3⟩, "SHA-256"⟩ [] =
          Except.ok sigChars ∧
        getHeader rq.headers "x-sign" = some (String.mk sigChars) := by
  have hreq : (doOnce cmW (some ⟨some ⟨33, 7⟩, some ⟨33, 3⟩, "SHA-256"⟩) []
      BodyArg.noBody none (DispatchResult.resp 200 (Except.ok [])) 0
      (fun _ => false)).req =
      some ⟨[("Accept", "application/json"), ("x-sign", "AA==")], none⟩ := by
    decide
  have h := (C6_signature_header cmW (some ⟨some ⟨33, 7⟩, some ⟨33, 3⟩, "SHA-256"⟩)
    [] BodyArg.noBody none (DispatchResult.resp 200 (Except.ok [])) 0
    (fun _ => false)).1 ⟨some ⟨33, 7⟩, some ⟨33, 3⟩, "SHA-256"⟩
    ⟨[("Accept", "application/json"), ("x-sign", "AA==")], none⟩ none rfl hreq rfl
  exact ⟨⟨[("Accept", "application/json"), ("x-sign", "AA==")], none⟩, hreq, h.1, h.2⟩

/-! ## Claim theorems: observer hook discipline (C9) -/

/-- Counterexample to C9 as stated: on an HTTP 500 response whose body is
fully read, `recordResponse` fires (line 169 of client.go runs before status
classification), so the response hook fires on a non-2xx attempt — a case
the claim excludes ("on success and on a decode failure after a 2xx, and in
no other case"). -/
theorem C9_counterexample :
    (doOnce cmW none [] BodyArg.noBody none
        (DispatchResult.resp 500 (Except.ok [7])) 0 (fun _ => false)).events =
      [Event.reqE 0 [], Event.respE 0 [7], Event.errE 0] ∧
    (doOnce cmW none [] BodyArg.noBody none
        (DispatchResult.resp 500 (Except.ok [7])) 0 (fun _ => false)).err =
      some (GoError.httpStatus 500 [7]) := by
  constructor
  · decide
  · decide

/-- C9 (amended) — Observer hook discipline: within one attempt, every
recorded event carries the per-attempt identifier; the error hook fires
exactly once iff the attempt failed; the request hook fires exactly once iff
the request was built (encode and sign succeeded), with the outgoing body;
the response hook fires exactly once — with the raw body — iff the response
body was fully read, which includes non-2xx responses, and fires zero times
when the request was never built or the dispatch/read failed; hook outcomes
never change the attempt's result. -/
theorem C9_observer_hooks (cm : CryptoModel) (signer : Option RSASignerM)
    (defHs : List (String × String)) (body : BodyArg)
    (out : Option (List Nat → Option GoError)) (dispatch : DispatchResult)
    (id : Nat) (hk : Event → Bool) :
    ∀ r, r = doOnce cm signer defHs body out dispatch id hk →
      (∀ ev ∈ r.events, eventID ev = id) ∧
      countE isErrE r.events = (if r.err.isSome then 1 else 0) ∧
      countE isReqE r.events = (if r.req.isSome then 1 else 0) ∧
      (∀ rq, r.req = some rq → Event.reqE id (rq.body.getD []) ∈ r.events) ∧
      (∀ st raw, dispatch = DispatchResult.resp st (Except.ok raw) →
        r.req.isSome = true →
        countE isRespE r.events = 1 ∧ Event.respE id raw ∈ r.events) ∧
      (r.req.isSome = false → countE isRespE r.events = 0) ∧
      (∀ e, dispatch = DispatchResult.transportErr e →
        countE isRespE r.events = 0) ∧
      (∀ st e, dispatch = DispatchResult.resp st (Except.error e) →
        countE isRespE r.events = 0) ∧
      (∀ f g, doOnce cm signer defHs body out dispatch id f =
        doOnce cm signer defHs body out dispatch id g) := by
  intro r hr
  subst hr
  rcases hp : prepareRequest cm signer defHs body with e | rq
  · refine ⟨?_, ?_, ?_, ?_, ?_, ?_, ?_, ?_, fun f g => rfl⟩ <;>
      simp [doOnce, hp, countE, isErrE, isReqE, isRespE, eventID]
  · rcases dispatch with e' | ⟨st, rr⟩
    · refine ⟨?_, ?_, ?_, ?_, ?_, ?_, ?_, ?_, fun f g => rfl⟩ <;>
        simp [doOnce, hp, countE, isErrE, isReqE, isRespE, eventID]
    · rcases rr with e' | raw
      · refine ⟨?_, ?_, ?_, ?_, ?_, ?_, ?_, ?_, fun f g => rfl⟩ <;>
          simp [doOnce, hp, countE, isErrE, isReqE, isRespE, eventID]
      · by_cases hst : st < 200 ∨ 300 ≤ st
        · refine ⟨?_, ?_, ?_, ?_, ?_, ?_, ?_, ?_, fun f g => rfl⟩ <;>
            simp [doOnce, hp, hst, countE, isErrE, isReqE, isRespE, eventID]
        · rcases out with _ | dec
          · refine ⟨?_, ?_, ?_, ?_, ?_, ?_, ?_, ?_, fun f g => rfl⟩ <;>
              simp [doOnce, hp, hst, countE, isErrE, isReqE, isRespE, eventID]
          · rcases hdec : dec raw with _ | e'
            · refine ⟨?_, ?_, ?_, ?_, ?_, ?_, ?_, ?_, fun f g => rfl⟩ <;>
                simp [doOnce, hp, hst, hdec, countE, isErrE, isReqE, isRespE,
                  eventID]
            · refine ⟨?_, ?_, ?_, ?_, ?_, ?_, ?_, ?_, fun f g => rfl⟩ <;>
                simp [doOnce, hp, hst, hdec, countE, isErrE, isReqE, isRespE,
                  eventID]

/-- Witness for C9 at concrete inputs: a 2xx attempt with a read body fires
the response hook exactly once with the raw bytes. -/
theorem C9_witness :
    countE isRespE (doOnce cmW none [] BodyArg.noBody none
      (DispatchResult.resp 200 (Except.ok [1])) 5 (fun _ => false)).events = 1 ∧
    Event.respE 5 [1] ∈ (doOnce cmW none [] BodyArg.noBody none
      (DispatchResult.resp 200 (Except.ok [1])) 5 (fun _ => false)).events := by
  have h := C9_observer_hooks cmW none [] BodyArg.noBody none
    (DispatchResult.resp 200 (Except.ok [1])) 5 (fun _ => false) _ rfl
  exact h.2.2.2.2.1 200 [1] rfl (by decide)

/-! ## Claim theorems: nil output shape (C10) -/

/-- C10 — Nil output shape: on a 2xx response with a fully read body, a nil
output value (`out = none`) makes the attempt succeed with the full raw
bytes and no decode; with a non-nil output, the attempt's success is exactly
the supplied decoder's success, so decode errors can only arise when a
non-nil output value is supplied. -/
theorem C10_nil_output (cm : CryptoModel) (signer : Option RSASignerM)
    (defHs : List (String × String)) (body : BodyArg) (id : Nat)
    (hk : Event → Bool) (st : Nat) (raw : List Nat)
    (h2 : 200 ≤ st) (h3 : st < 300) :
    ((doOnce cm signer defHs body none
        (DispatchResult.resp st (Except.ok raw)) id hk).req.isSome = true →
      (doOnce cm signer defHs body none
        (DispatchResult.resp st (Except.ok raw)) id hk).err = none ∧
      (doOnce cm signer defHs body none
        (DispatchResult.resp st (Except.ok raw)) id hk).raw = raw) ∧
    (∀ dec, (doOnce cm signer defHs body (some dec)
        (DispatchResult.resp st (Except.ok raw)) id hk).req.isSome = true →
      ((doOnce cm signer defHs body (some dec)
        (DispatchResult.resp st (Except.ok raw)) id hk).err = none ↔
        dec raw = none)) := by
  have hst : ¬(st < 200 ∨ 300 ≤ st) := by omega
  constructor
  · intro hreq
    rcases hp : prepareRequest cm signer defHs body with e | rq
    · rw [doOnce_req, hp] at hreq
      simp [Except.toOption] at hreq
    · constructor <;> simp [doOnce, hp, hst]
  · intro dec hreq
    rcases hp : prepareRequest cm signer defHs body with e | rq
    · rw [doOnce_req, hp] at hreq
      simp [Except.toOption] at hreq
    · rcases hdec : dec raw with _ | e
      · simp [doOnce, hp, hst, hdec]
      · simp [doOnce, hp, hst, hdec]

/-- Witness for C10 at concrete inputs: a 2xx response whose body `[1, 2]`
is not valid JSON still succeeds with a nil output value, returning the raw
bytes. -/
theorem C10_witness :
    ((200 : Nat) ≤ 200 ∧ (200 : Nat) < 300) ∧
    (doOnce cmW none [] BodyArg.noBody none
      (DispatchResult.resp 200 (Except.ok [1, 2])) 0 (fun _ => false)).err = none ∧
    (doOnce cmW none [] BodyArg.noBody none
      (DispatchResult.resp 200 (Except.ok [1, 2])) 0 (fun _ => false)).raw = [1, 2] := by
  have h := C10_nil_output cmW none [] BodyArg.noBody 0 (fun _ => false) 200 [1, 2]
    (by omega) (by omega)
  exact ⟨⟨by omega, by omega⟩, h.1 (by decide)⟩
